import Mathlib

/-!
# Seismograph: a verification development

A shallow embedding of `Source/Utilities.cpp` and `Source/Main.cpp`.

* A `std::string` is a list of characters (`Str`); one character stands for one
  byte of the C++ string.
* A `std::vector` is a list.
* Global variables of `Main.cpp` are the fields of `State`; every function that
  reads or writes them takes a `State` and returns the `State` it leaves behind.
* A `throw std::runtime_error{...}` is the outcome `Outcome.error` carrying the
  message; undefined behaviour of the C++ abstract machine is `Outcome.undefined`.
* `LV::Request::request` and the file system are parameters (`Env`); what the
  program does to them is recorded in `State.trace`.
* `std::stof` and `std::stoi` are parameters (`Conversions`); the two regular
  expressions of `main` are the functions `matches_date` and `matches_time`.
-/

namespace Seismograph

/-- A `std::string`: the sequence of its characters. -/
abbrev Str := List Char

/-- How a C++ call ends: it returns a value, it throws a `std::runtime_error`
with a message, or it runs into undefined behaviour. -/
inductive Outcome (α : Type) where
  | ok (value : α)
  | error (message : Str)
  | undefined
  deriving DecidableEq, Repr

/-! ## `Source/Utilities.cpp` -/

namespace Utilities

/-- `LV::Utilities::is_supported`: linear search for `option` among the
`supported_options`. -/
def is_supported (option : Str) : List Str → Bool
  | [] => false
  | supported_option :: rest =>
    if option = supported_option then true else is_supported option rest

/-- The `std::istringstream` of `split`: the characters not yet read and whether
the stream is still `good()` (no end of input met so far). -/
structure Stream where
  unread : Str
  good : Bool
  deriving DecidableEq, Repr

/-- The call `std::getline(stream, line, delimiter)` on a good stream with the
unread characters `unread`: it extracts characters up to the first `delimiter`,
which is consumed and not stored, and leaves the stream good; when the input
ends first it stores what was read and the stream is no longer good. -/
def getline : Str → Char → Str × Stream
  | [], _ => ([], ⟨[], false⟩)
  | c :: cs, delimiter =>
    if c = delimiter then ([], ⟨cs, true⟩)
    else ((c :: (getline cs delimiter).1), (getline cs delimiter).2)

/-- The loop `while(stream.good()) { getline; results.emplace_back(line); }` of
`split`; `fuel` bounds the number of iterations. -/
def split_loop : Nat → Stream → Char → List Str
  | 0, _, _ => []
  | fuel + 1, stream, delimiter =>
    if stream.good then
      (getline stream.unread delimiter).1 ::
        split_loop fuel (getline stream.unread delimiter).2 delimiter
    else []

/-- `LV::Utilities::split`. Every iteration of the loop but the last consumes a
delimiter, so `string.length + 1` iterations are enough (`split_eq_pieces`). -/
def split (string : Str) (delimiter : Char) : List Str :=
  split_loop (string.length + 1) ⟨string, true⟩ delimiter

end Utilities

/-! ## `Source/Main.cpp`: `parse` -/

/-- The message of the exception thrown by `parse`. -/
def parse_error : Str := "Failed to parse the data.".toList

/-- The loop of `parse` over the remaining lines: every line is split on the
separator and appended to the result; a line with a number of fields other than
`count` throws. -/
def parse_lines (separator : Char) (count : Nat) : List Str → Outcome (List (List Str))
  | [] => .ok []
  | station_string :: rest =>
    if (Utilities.split station_string separator).length ≠ count then .error parse_error
    else
      match parse_lines separator count rest with
      | .ok result => .ok (Utilities.split station_string separator :: result)
      | .error message => .error message
      | .undefined => .undefined

/-- The default value of the parameter `count` of `parse`. -/
def default_count : Nat := 8

/-- The function `parse`. `lines.erase(lines.begin())` removes the first line
(`split` never returns an empty vector); `lines.pop_back()` on the vector that
is left is undefined behaviour when that vector is empty. `count` is the `int`
parameter of the source; every caller leaves it at its default, `default_count`. -/
def parse (response : Str) (separator : Char) (count : Nat) :
    Outcome (List (List Str)) :=
  match (Utilities.split response '\n').tail with
  | [] => .undefined
  | line :: lines => parse_lines separator count (line :: lines).dropLast


/-! ## `Source/Main.cpp`: data -/

/-- The struct `Station`. -/
structure Station where
  network : Str
  station : Str
  latitude : Str
  longitude : Str
  invalid : Bool
  deriving DecidableEq, Repr, Inhabited

/-- The struct `Channel`. -/
structure Channel where
  channel : Str
  location : Str
  deriving DecidableEq, Repr, Inhabited

/-- The constant `valid_channel_types`. -/
def valid_channel_types : List Str := ["BHZ".toList, "HNZ".toList]

/-- A positive normal value or the positive infinity of the IEEE 754 binary32
format, the type `float` of the global `radius`: `finite m e` is the number
`m * 2 ^ e`, where `2 ^ 23 ≤ m < 2 ^ 24` and `-149 ≤ e ≤ 104`. -/
inductive Binary32 where
  | finite (mantissa : Nat) (exponent : Int)
  | infinity
  deriving DecidableEq, Repr

namespace Binary32

/-- The largest exponent of a finite binary32 value: the largest one is
`(2 ^ 24 - 1) * 2 ^ 104`. -/
def max_exponent : Int := 104

/-- The product `radius * 2` in binary32 arithmetic, on a normal value:
exact when the result is finite; a result of `2 ^ 128` or more rounds to
infinity, and twice infinity is infinity. -/
def double : Binary32 → Binary32
  | finite mantissa exponent =>
    if exponent + 1 ≤ max_exponent then finite mantissa (exponent + 1) else infinity
  | infinity => infinity

/-- The rational number a finite value stands for. -/
def toRat : Binary32 → Option ℚ
  | finite mantissa exponent => some ((mantissa : ℚ) * (2 : ℚ) ^ exponent)
  | infinity => none

end Binary32

/-- The literal `.1f`: the binary32 value nearest to 0.1, `13421773 * 2 ^ (-27)`
(bit pattern `0x3DCCCCCD`). -/
def initial_radius : Binary32 := .finite 13421773 (-27)

/-- Order of `std::string` keys in a `std::map`: lexicographic, character by
character. -/
def less : Str → Str → Bool
  | _, [] => false
  | [], _ :: _ => true
  | a :: as, b :: bs =>
    if a.toNat < b.toNat then true
    else if b.toNat < a.toNat then false
    else less as bs

/-- The `std::map<std::string, Station>`: its entries in iteration order, which
is ascending key order. -/
abbrev Registry := List (Str × Station)

namespace Registry

/-- The call `stations.find(key)`: the entry of `key`, or `none` for `end()`. -/
def find (key : Str) : Registry → Option Station
  | [] => none
  | (k, station) :: rest => if key = k then some station else find key rest

/-- The call `stations.emplace(key, station)`: the entry is put at its place in
key order, and nothing is done when the key is already there. -/
def emplace (key : Str) (station : Station) : Registry → Registry
  | [] => [(key, station)]
  | (k, s) :: rest =>
    if less key k then (key, station) :: (k, s) :: rest
    else if key = k then (k, s) :: rest
    else (k, s) :: emplace key station rest

/-- The keys of the map in iteration order. -/
def keys (stations : Registry) : List Str := stations.map Prod.fst

end Registry

/-- What a request URL is built from. The host, the fixed parameters, and the
global `latitude` and `longitude`, which `main` sets once before the loop, are
left out. -/
inductive Query where
  | stations (maxradius : Binary32) (start_date : Str)
  | availability (network station start_date : Str)
  | timeseries (network station location channel start_date start_time : Str)
      (duration : Int)
  deriving DecidableEq, Repr

/-- What the program does to the outside world. -/
inductive Event where
  | request (query : Query)
  | open_file (file_name : Str)
  | write_file (file_name : Str) (contents : Str)
  deriving DecidableEq, Repr

/-- The outside world. -/
structure Env where
  /-- Modelled from the spec: `LV::Request::request` is declared in `Request.hpp`,
  which is not among the sources. It returns the body of the response or fails
  with a transport error; the answer may depend on everything done so far. -/
  request : List Event → Query → Except Str Str
  /-- Whether `std::ofstream file{file_name, ...}` manages to open the file. -/
  file_opens : List Event → Str → Bool

/-- The global variables of `Main.cpp` (without `latitude` and `longitude`, see
`Query`), and the trace of what was done to the outside world so far. -/
structure State where
  start_date : Str
  start_time : Str
  duration : Int
  radius : Binary32
  first_attempt : Bool
  stations : Registry
  selected_station : Station
  selected_channel : Channel
  trace : List Event
  deriving DecidableEq, Repr

/-- The test `text.find(pattern) != std::string::npos`. -/
def contains : Str → Str → Bool
  | [], pattern => pattern.isPrefixOf []
  | c :: rest, pattern => pattern.isPrefixOf (c :: rest) || contains rest pattern

/-- The marker of the answer "no data". -/
def not_found : Str := "Error 404".toList

/-- The element `row[i]` of a parsed row. `parse` returns rows of
`default_count` fields only, so the indices 0 to 3 used below are in range. -/
def field (row : List Str) (i : Nat) : Str := row.getD i []

/-! ## `Source/Main.cpp`: `find_available_stations` -/

/-- The loop of `find_available_stations` over the parsed rows. -/
def add_stations : List (List Str) → Registry → Registry
  | [], stations => stations
  | raw_station :: rest, stations =>
    let station : Station :=
      ⟨field raw_station 0, field raw_station 1, field raw_station 2, field raw_station 3, false⟩
    let key := station.network ++ station.station
    if (stations.find key).isNone then add_stations rest (stations.emplace key station)
    else add_stations rest stations

/-- The function `find_available_stations`. -/
def find_available_stations (env : Env) (s : State) : State × Outcome Bool :=
  let station_query := Query.stations s.radius s.start_date
  let s1 := { s with trace := s.trace ++ [Event.request station_query] }
  match env.request s.trace station_query with
  | .error message => (s1, .error message)
  | .ok response =>
    if contains response not_found then (s1, .ok false)
    else
      match parse response '|' default_count with
      | .ok raw_stations =>
        ({ s1 with stations := add_stations raw_stations s1.stations }, .ok true)
      | .error message => (s1, .error message)
      | .undefined => (s1, .undefined)

/-! ## `Source/Main.cpp`: `find_usable_channel` -/

/-- The inner loop of `find_usable_channel` over the rows of one availability
table: the channel of the first row whose channel code is supported. -/
def first_usable : List (List Str) → Option Channel
  | [] => none
  | raw_channel :: rest =>
    let channel : Channel := ⟨field raw_channel 3, field raw_channel 2⟩
    if Utilities.is_supported channel.channel valid_channel_types then some channel
    else first_usable rest

/-- The body of the loop of `find_usable_channel` for a station that is not
marked invalid, from the answer to its availability query on: `ok (some c)` when
the table has the usable channel `c` (the loop is left by `return true`),
`ok none` when the answer is "no data" or the table has no usable channel (the
station is then marked invalid and the loop goes on), or the exception of
`request` or `parse`. -/
def check_channels (env : Env) (start_date : Str) (station : Station) (trace : List Event) :
    Outcome (Option Channel) :=
  match env.request trace (Query.availability station.network station.station start_date) with
  | .error message => .error message
  | .ok response =>
    if contains response not_found then .ok none
    else
      match parse response ' ' default_count with
      | .error message => .error message
      | .undefined => .undefined
      | .ok raw_channels => .ok (first_usable raw_channels)

/-- Where the loop of `find_usable_channel` over the map stands when it is left:
the entries it went through (with their new `invalid` flags) followed by the
ones it did not reach, the trace, and how it was left: with the station and
channel it returns `true` for, with `none` when it ran to the end, or by an
exception. -/
structure Scan where
  stations : Registry
  trace : List Event
  result : Outcome (Option (Station × Channel))
  deriving DecidableEq, Repr

/-- The loop `for(auto& iterator : stations)` of `find_usable_channel`, from
the entry the iterator stands at. -/
def scan_stations (env : Env) (start_date : Str) : Registry → List Event → Scan
  | [], trace => ⟨[], trace, .ok none⟩
  | (key, station) :: rest, trace =>
    if station.invalid then
      let r := scan_stations env start_date rest trace
      { r with stations := (key, station) :: r.stations }
    else
      let channel_query := Query.availability station.network station.station start_date
      let trace1 := trace ++ [Event.request channel_query]
      match check_channels env start_date station trace with
      | .ok (some channel) => ⟨(key, station) :: rest, trace1, .ok (some (station, channel))⟩
      | .ok none =>
        let r := scan_stations env start_date rest trace1
        { r with stations := (key, { station with invalid := true }) :: r.stations }
      | .error message => ⟨(key, station) :: rest, trace1, .error message⟩
      | .undefined => ⟨(key, station) :: rest, trace1, .undefined⟩

/-- The function `find_usable_channel`. -/
def find_usable_channel (env : Env) (s : State) : State × Outcome Bool :=
  let r := scan_stations env s.start_date s.stations s.trace
  let s1 := { s with stations := r.stations, trace := r.trace }
  match r.result with
  | .ok (some (station, channel)) =>
    ({ s1 with selected_station := station, selected_channel := channel }, .ok true)
  | .ok none => (s1, .ok false)
  | .error message => (s1, .error message)
  | .undefined => (s1, .undefined)

/-! ## `Source/Main.cpp`: `save_wav` -/

/-- The message of the exception for a response that is not a RIFF file. -/
def download_error : Str := "Failed to download the data.".toList

/-- The message of the exception for a file that cannot be opened. -/
def save_error : Str := "Failed to save the file.".toList

/-- The signature `"RIFF"` a waveform response has to begin with. -/
def riff : Str := "RIFF".toList

/-- The call `std::replace(begin, end, old_value, new_value)` on a string. -/
def replace (text : Str) (old_value new_value : Char) : Str :=
  text.map fun c => if c = old_value then new_value else c

/-- The output of `stream << value` for an `int`: its decimal digits, after a
minus sign when it is negative. -/
def stream_int (value : Int) : Str :=
  if value < 0 then '-' :: Nat.toDigits 10 value.natAbs else Nat.toDigits 10 value.natAbs

/-- The name `save_wav` builds for the output file. -/
def file_name (s : State) : Str :=
  let converted_time := replace s.start_time ':' '-'
  s.selected_station.network ++ " ".toList ++ s.selected_station.station ++ " ".toList
    ++ s.selected_channel.channel ++ " ".toList ++ s.start_date ++ " ".toList
    ++ converted_time ++ " ".toList ++ stream_int s.duration ++ ".wav".toList

/-- The function `save_wav`. -/
def save_wav (env : Env) (s : State) : State × Outcome Unit :=
  let wav_query := Query.timeseries s.selected_station.network s.selected_station.station
    s.selected_channel.location s.selected_channel.channel s.start_date s.start_time s.duration
  let s1 := { s with trace := s.trace ++ [Event.request wav_query] }
  match env.request s.trace wav_query with
  | .error message => (s1, .error message)
  | .ok response =>
    if response.take 4 ≠ riff then (s1, .error download_error)
    else
      let s2 := { s1 with trace := s1.trace ++ [Event.open_file (file_name s)] }
      if env.file_opens s1.trace (file_name s) then
        ({ s2 with trace := s2.trace ++ [Event.write_file (file_name s) response] }, .ok ())
      else (s2, .error save_error)

/-! ## `Source/Main.cpp`: the search loop of `main` -/

/-- Where `main` stands after an iteration of `while(true)`: the loop goes on,
it was left by `break` after `save_wav`, an exception reached the handler of
`main`, or the behaviour is undefined. -/
inductive Status where
  | searching
  | saved
  | failed (message : Str)
  | undefined
  deriving DecidableEq, Repr

/-- The body of the loop `while(true)` of `main` after the radius was set:
station discovery, then channel discovery, then `save_wav` and `break`. -/
def attempt (env : Env) (s : State) : State × Status :=
  match find_available_stations env s with
  | (s1, .error message) => (s1, .failed message)
  | (s1, .undefined) => (s1, .undefined)
  | (s1, .ok false) => ({ s1 with first_attempt := false }, .searching)
  | (s1, .ok true) =>
    match find_usable_channel env s1 with
    | (s2, .error message) => (s2, .failed message)
    | (s2, .undefined) => (s2, .undefined)
    | (s2, .ok false) => ({ s2 with first_attempt := false }, .searching)
    | (s2, .ok true) =>
      match save_wav env s2 with
      | (s3, .error message) => (s3, .failed message)
      | (s3, .undefined) => (s3, .undefined)
      | (s3, .ok _) => (s3, .saved)

/-- One iteration of the loop `while(true)` of `main`: the radius is doubled
unless this is the first attempt, then comes the `attempt`. -/
def iteration (env : Env) (s : State) : State × Status :=
  attempt env (if !s.first_attempt then { s with radius := s.radius.double } else s)

/-- The globals when `main` enters the loop: `radius = .1f`,
`first_attempt = true`; the map is empty and the selected station and channel
are value-initialised. The date, time and duration are the ones read from the
input line. -/
def initial_state (start_date start_time : Str) (duration : Int) : State :=
  { start_date := start_date, start_time := start_time, duration := duration,
    radius := initial_radius, first_attempt := true, stations := [],
    selected_station := ⟨[], [], [], [], false⟩, selected_channel := ⟨[], []⟩,
    trace := [] }

/-- The loop `while(true)` of `main` for at most `n` iterations, from the state
`s`: the state reached and whether the loop is still going on there. -/
def run (env : Env) : Nat → State → State × Status
  | 0, s => (s, .searching)
  | n + 1, s =>
    match iteration env s with
    | (s1, .searching) => run env n s1
    | (s1, status) => (s1, status)

/-- The radius of a station query, for an event that is one. -/
def station_radius : Event → Option Binary32
  | .request (.stations maxradius _) => some maxradius
  | _ => none

/-- The radii of the station queries in a trace, in the order they were sent. -/
def station_radii (trace : List Event) : List Binary32 := trace.filterMap station_radius

/-- The registry key (network code followed by station code) of the station an
availability query is about, for an event that is one. -/
def channel_key : Event → Option Str
  | .request (.availability network station _) => some (network ++ station)
  | _ => none

/-- The registry keys of the availability queries in a trace, in the order they
were sent. -/
def channel_keys (trace : List Event) : List Str := trace.filterMap channel_key

/-! ## `Source/Main.cpp`: the input line of `main` -/

/-- The conversions `std::stof` and `std::stoi` of the standard library, as far
as `main` depends on them: whether the token converts, the `int` for `stoi`,
and otherwise the message of the exception thrown (`std::invalid_argument` or
`std::out_of_range`). The `float` values only go into the station query, see
`Query`. -/
structure Conversions where
  stof : Str → Except Str Unit
  stoi : Str → Except Str Int

/-- The message of the exception for an input line that does not have five
tokens. -/
def usage : Str :=
  ("Usage: <Latitude> <Longitude> <Date> <Time> <Duration>. " ++
   "\"Date\" must be in YYYY-MM-DD format. \"Time\" must " ++
   "be in HH:MM:SS format (24-hour). \"Duration\" is in seconds. " ++
   "Example: \"41.967 -71.188 2017-03-01 12:00:00 1800\".").toList

/-- The message of the exception for a date token of another form. -/
def invalid_date : Str := "Invalid date format.".toList

/-- The message of the exception for a time token of another form. -/
def invalid_time : Str := "Invalid time format.".toList

/-- The class `\d` of the regular expressions of `main`: a decimal digit. -/
def is_digit (c : Char) : Bool := '0'.toNat ≤ c.toNat && c.toNat ≤ '9'.toNat

/-- The test `std::regex_match(start_date, std::regex("^\\d{4}-\\d{2}-\\d{2}$"))`:
the whole token is four digits, `-`, two digits, `-`, two digits. -/
def matches_date : Str → Bool
  | [y1, y2, y3, y4, s1, m1, m2, s2, d1, d2] =>
    is_digit y1 && is_digit y2 && is_digit y3 && is_digit y4 && s1 = '-' &&
    is_digit m1 && is_digit m2 && s2 = '-' && is_digit d1 && is_digit d2
  | _ => false

/-- The test `std::regex_match(start_time, std::regex("^\\d{2}:\\d{2}:\\d{2}$"))`:
the whole token is two digits, `:`, two digits, `:`, two digits. -/
def matches_time : Str → Bool
  | [h1, h2, s1, m1, m2, s2, c1, c2] =>
    is_digit h1 && is_digit h2 && s1 = ':' && is_digit m1 && is_digit m2 && s2 = ':' &&
    is_digit c1 && is_digit c2
  | _ => false

/-- The part of `main` from the input line to the loop: the line is split on
`' '`, the tokens are counted, converted and matched, in the order of the
source, and the globals are set for the loop. -/
def read_input (conv : Conversions) (input : Str) : Outcome State :=
  let tokens := Utilities.split input ' '
  if tokens.length ≠ 5 then .error usage
  else
    match conv.stof (tokens.getD 0 []) with
    | .error message => .error message
    | .ok _ =>
      match conv.stof (tokens.getD 1 []) with
      | .error message => .error message
      | .ok _ =>
        if !matches_date (tokens.getD 2 []) then .error invalid_date
        else if !matches_time (tokens.getD 3 []) then .error invalid_time
        else
          match conv.stoi (tokens.getD 4 []) with
          | .error message => .error message
          | .ok duration =>
            .ok (initial_state (tokens.getD 2 []) (tokens.getD 3 []) duration)

/-- The function `main` from the input line on, with at most `n` iterations of
its loop: what was done to the outside world and where `main` stands. -/
def main (env : Env) (conv : Conversions) (input : Str) (n : Nat) : List Event × Status :=
  match read_input conv input with
  | .ok s => ((run env n s).1.trace, (run env n s).2)
  | .error message => ([], .failed message)
  | .undefined => ([], .undefined)

/-! ## Reference definitions and concrete inputs -/

/-- The pieces of a text between the occurrences of a delimiter, by recursion
on the text: the reference for `split`. -/
def pieces : Str → Char → List Str
  | [], _ => [[]]
  | c :: cs, d =>
    if c = d then [] :: pieces cs d
    else (c :: (pieces cs d).headD []) :: (pieces cs d).tail

/-- A station of the scenarios below. -/
def anmo : Station :=
  ⟨"IU".toList, "ANMO".toList, "34.9459".toList, "-106.4572".toList, false⟩

/-- A station that was marked invalid before. -/
def afi : Station :=
  ⟨"IU".toList, "AFI".toList, "-13.9093".toList, "-171.7773".toList, true⟩

/-- The rows of `lhz_bhz_table`. -/
def lhz_row : List Str :=
  ["IU".toList, "ANMO".toList, "00".toList, "LHZ".toList, "M".toList, "1".toList,
    "a".toList, "b".toList]

/-- The second row of `lhz_bhz_table`. -/
def bhz_row : List Str :=
  ["IU".toList, "ANMO".toList, "10".toList, "BHZ".toList, "M".toList, "40".toList,
    "a".toList, "b".toList]

/-- An availability table with the channel `LHZ` at location `00` followed by
the channel `BHZ` at location `10`. -/
def lhz_bhz_table : Str :=
  "#n s l c q r e l\nIU ANMO 00 LHZ M 1 a b\nIU ANMO 10 BHZ M 40 a b\n".toList

/-- A world where every request is answered with `lhz_bhz_table`. -/
def lhz_bhz_env : Env := ⟨fun _ _ => .ok lhz_bhz_table, fun _ _ => true⟩

/-- A state at the call of `find_usable_channel`, the map holding `afi` and
`anmo`. -/
def lhz_bhz_state : State :=
  { initial_state "2017-03-01".toList "12:00:00".toList 1800 with
    stations := [("IUAFI".toList, afi), ("IUANMO".toList, anmo)] }

/-- A station table whose first row has the key of `afi`, with other
coordinates. -/
def afi_anmo_table : Str :=
  "#h\nIU|AFI|1.0|2.0|e|n|s|t\nIU|ANMO|34.9|-106.4|e|n|s|t\n".toList

/-- A world where every request is answered with `afi_anmo_table`. -/
def afi_anmo_env : Env := ⟨fun _ _ => .ok afi_anmo_table, fun _ _ => true⟩

/-- A state at the call of `find_available_stations`, the map holding `afi`,
marked invalid. -/
def afi_state : State :=
  { initial_state "2017-03-01".toList "12:00:00".toList 1800 with
    stations := [("IUAFI".toList, afi)] }

/-- A station table with the stations `BC` of the network `A` and `C` of the
network `AB`. -/
def collision_table : Str := "#h\nA|BC|1|2|e|n|s|t\nAB|C|3|4|e|n|s|t\n".toList

/-- A world where every request is answered with `collision_table`. -/
def collision_env : Env := ⟨fun _ _ => .ok collision_table, fun _ _ => true⟩

/-- The invariant of the search loop that keeps every station from being
queried twice: no key occurs twice among the availability queries sent so far
or among the keys of the map, every key of the map is the network code
followed by the station code of its entry, and the stations queried so far are
the ones that are marked invalid. -/
def QueriedOnce (stations : Registry) (trace : List Event) : Prop :=
  (channel_keys trace).Nodup ∧ stations.keys.Nodup ∧
  (∀ e ∈ stations, e.1 = e.2.network ++ e.2.station) ∧
  (∀ k ∈ channel_keys trace, k ∈ stations.keys) ∧
  (∀ e ∈ stations, e.2.invalid = false → e.1 ∉ channel_keys trace) ∧
  (∀ e ∈ stations, e.2.invalid = true → e.1 ∈ channel_keys trace)

/-- A world where every station query is answered with `afi_anmo_table` and
every other request with "Error 404". -/
def no_channels_env : Env :=
  ⟨fun _ query =>
      match query with
      | .stations _ _ => .ok afi_anmo_table
      | _ => .ok not_found,
    fun _ _ => true⟩

/-- The state `main` enters the loop with for the input line of the usage
message. -/
def example_start : State := initial_state "2017-03-01".toList "12:00:00".toList 1800

/-- A world where every request is answered with "Error 404". -/
def not_found_env : Env := ⟨fun _ _ => .ok not_found, fun _ _ => true⟩

/-- A station table with the station `anmo`. -/
def anmo_table : Str := "#h\nIU|ANMO|34.9459|-106.4572|e|n|s|t\n".toList

/-- A waveform response that begins with `RIFF`. -/
def riff_body : Str := "RIFF....WAVE".toList

/-- A world where the station `anmo` is found, has the channels of
`lhz_bhz_table`, and the waveform response is `riff_body`. -/
def found_env : Env :=
  ⟨fun _ query =>
      match query with
      | .stations _ _ => .ok anmo_table
      | .availability _ _ _ => .ok lhz_bhz_table
      | .timeseries _ _ _ _ _ _ _ => .ok riff_body,
    fun _ _ => true⟩

/-- A world where every response is an HTML page. -/
def html_env : Env := ⟨fun _ _ => .ok "<html>".toList, fun _ _ => true⟩

/-- A world where every response is empty. -/
def empty_env : Env := ⟨fun _ _ => .ok [], fun _ _ => true⟩

/-- A state at the call of `save_wav`: the station `anmo` and its channel `BHZ`
at the location `10` are selected. -/
def selected_state : State :=
  { example_start with
    stations := [("IUANMO".toList, anmo)],
    selected_station := anmo,
    selected_channel := ⟨"BHZ".toList, "10".toList⟩ }

/-- A state at the call of `find_available_stations`, the map holding `afi`,
marked invalid, and `anmo`. -/
def known_state : State :=
  { example_start with stations := [("IUAFI".toList, afi), ("IUANMO".toList, anmo)] }

/-- A world where every response is a table with a header and no row. -/
def header_only_env : Env := ⟨fun _ _ => .ok "#h\n".toList, fun _ _ => true⟩

/-- The map `after` has grown from the map `before`: it is not smaller, it has
every key of `before`, and the station of a key of `before` that was marked
invalid is still marked invalid. -/
def Grows (before after : Registry) : Prop :=
  before.length ≤ after.length ∧
  (∀ key ∈ before.keys, key ∈ after.keys) ∧
  (∀ key station, before.find key = some station →
    ∃ station', after.find key = some station' ∧
      (station.invalid = true → station'.invalid = true))

/-- An entry of the map with its station marked invalid. -/
def mark (entry : Str × Station) : Str × Station :=
  (entry.1, { entry.2 with invalid := true })

/-- The availability queries for the stations of the given entries that are not
marked invalid, in the order of the entries. -/
def probes (start_date : Str) (entries : Registry) : List Event :=
  (entries.filter fun entry => !entry.2.invalid).map fun entry =>
    Event.request (Query.availability entry.2.network entry.2.station start_date)

/-- A station with a key greater than the key of `anmo`. -/
def cola : Station :=
  ⟨"IU".toList, "COLA".toList, "64.8736".toList, "-147.8616".toList, false⟩

/-- A state at the call of `find_usable_channel`, the map holding `afi`, marked
invalid, `anmo` and `cola`. -/
def three_state : State :=
  { example_start with
    stations := [("IUAFI".toList, afi), ("IUANMO".toList, anmo), ("IUCOLA".toList, cola)] }

/-- The invariant of the `std::map`: the entries are in ascending order of
their keys, and (by the one call of `emplace`) every key is the network code
followed by the station code of its station. -/
def WellFormed (stations : Registry) : Prop :=
  stations.Pairwise (fun a b => less a.1 b.1 = true) ∧
  ∀ entry ∈ stations, entry.1 = entry.2.network ++ entry.2.station

/-- Conversions that accept every token, the duration being 1800. -/
def lenient : Conversions := ⟨fun _ => .ok (), fun _ => .ok 1800⟩

/-! # Theorems -/

open Utilities

/-! ## `split` -/

theorem getline_unread_lt (d : Char) (s : Str) (h : (getline s d).2.good = true) :
    (getline s d).2.unread.length < s.length := by
  induction s with
  | nil => simp [getline] at h
  | cons c cs ih =>
    by_cases hc : c = d
    · simp [getline, hc]
    · simp only [getline, hc, if_false] at h ⊢
      have := ih h
      simp only [List.length_cons]
      omega

theorem pieces_unfold (d : Char) (s : Str) :
    pieces s d = (getline s d).1 ::
      (if (getline s d).2.good then pieces (getline s d).2.unread d else []) := by
  induction s with
  | nil => simp [pieces, getline]
  | cons c cs ih =>
    by_cases hc : c = d
    · simp [pieces, getline, hc]
    · simp only [pieces, getline, hc, if_false]
      rw [ih]
      simp

theorem split_loop_eq_pieces (d : Char) :
    ∀ (fuel : Nat) (s : Str), s.length < fuel → split_loop fuel ⟨s, true⟩ d = pieces s d := by
  intro fuel
  induction fuel with
  | zero => intro s h; omega
  | succ f ih =>
    intro s h
    rw [pieces_unfold]
    simp only [split_loop, if_true]
    congr 1
    by_cases hg : (getline s d).2.good = true
    · have hlt := getline_unread_lt d s hg
      have := ih (getline s d).2.unread (by omega)
      rw [if_pos hg, ← this]
      congr 1
      cases hq : (getline s d).2 with
      | mk u g => rw [hq] at hg; simp at hg; simp [hg]
    · rw [if_neg hg]
      cases f with
      | zero => rfl
      | succ f' => simp [split_loop, hg]

theorem split_eq_pieces (s : Str) (d : Char) : split s d = pieces s d :=
  split_loop_eq_pieces d _ s (Nat.lt_succ_self _)

theorem pieces_ne_nil (s : Str) (d : Char) : pieces s d ≠ [] := by
  cases s with
  | nil => simp [pieces]
  | cons c cs => by_cases hc : c = d <;> simp [pieces, hc]

theorem pieces_cons_head_tail (s : Str) (d : Char) :
    pieces s d = (pieces s d).headD [] :: (pieces s d).tail := by
  have := pieces_ne_nil s d
  cases h : pieces s d with
  | nil => exact absurd h this
  | cons p ps => rfl

theorem pieces_eq_cons (s : Str) (d : Char) : ∃ p ps, pieces s d = p :: ps := by
  cases h : pieces s d with
  | nil => exact absurd h (pieces_ne_nil s d)
  | cons p ps => exact ⟨p, ps, rfl⟩

theorem pieces_no_delimiter (d : Char) (s : Str) : ∀ piece ∈ pieces s d, d ∉ piece := by
  induction s with
  | nil => simp [pieces]
  | cons c cs ih =>
    obtain ⟨p, ps, hps⟩ := pieces_eq_cons cs d
    rw [hps] at ih
    intro piece hp
    by_cases hc : c = d
    · simp only [pieces, hc, if_true, hps, List.mem_cons] at hp
      rcases hp with rfl | rfl | hp
      · simp
      · exact ih _ (List.mem_cons_self _ _)
      · exact ih _ (List.mem_cons_of_mem _ hp)
    · simp only [pieces, hc, if_false, hps, List.mem_cons, List.headD_cons, List.tail_cons] at hp
      rcases hp with rfl | hp
      · have := ih _ (List.mem_cons_self _ _)
        simp only [List.mem_cons, not_or]
        exact ⟨fun h => hc h.symm, this⟩
      · exact ih _ (List.mem_cons_of_mem _ hp)

theorem pieces_intercalate (d : Char) (s : Str) : List.intercalate [d] (pieces s d) = s := by
  induction s with
  | nil => simp [pieces, List.intercalate]
  | cons c cs ih =>
    obtain ⟨p, ps, hps⟩ := pieces_eq_cons cs d
    rw [hps] at ih
    by_cases hc : c = d
    · simp only [pieces, hc, if_true, hps]
      simp only [List.intercalate, List.intersperse, List.flatten] at ih ⊢
      simpa using ih
    · simp only [pieces, hc, if_false, hps, List.headD_cons, List.tail_cons]
      cases ps with
      | nil => simpa [List.intercalate] using ih
      | cons q qs =>
        simp only [List.intercalate, List.intersperse, List.flatten] at ih ⊢
        simpa using ih

theorem pieces_length (d : Char) (s : Str) : (pieces s d).length = s.count d + 1 := by
  induction s with
  | nil => simp [pieces]
  | cons c cs ih =>
    obtain ⟨p, ps, hps⟩ := pieces_eq_cons cs d
    rw [hps] at ih
    by_cases hc : c = d
    · simp [pieces, hc, hps] at ih ⊢
      omega
    · simp [pieces, hc, hps, List.count_cons] at ih ⊢
      omega

theorem pieces_append_delimiter (d : Char) (s : Str) :
    pieces (s ++ [d]) d = pieces s d ++ [[]] := by
  induction s with
  | nil => simp [pieces]
  | cons c cs ih =>
    obtain ⟨p, ps, hps⟩ := pieces_eq_cons cs d
    by_cases hc : c = d
    · simp [pieces, hc, ih]
    · simp [pieces, hc, ih, hps]

theorem split_length (text : Str) (delimiter : Char) :
    (split text delimiter).length = text.count delimiter + 1 := by
  rw [split_eq_pieces]; exact pieces_length delimiter text

theorem split_ne_nil (text : Str) (delimiter : Char) : split text delimiter ≠ [] := by
  rw [split_eq_pieces]; exact pieces_ne_nil text delimiter

/-- C9: `split` returns the pieces of the text between the delimiters, nothing
trimmed: no piece contains the delimiter, the pieces joined with the delimiter
give the text back, there is one piece more than there are delimiters in the
text, a text that ends in the delimiter has the empty string as its last piece,
and the empty text has the single piece `""`. -/
theorem split_pieces_join_count (text : Str) (delimiter : Char) :
    (∀ piece ∈ split text delimiter, delimiter ∉ piece) ∧
    List.intercalate [delimiter] (split text delimiter) = text ∧
    (split text delimiter).length = text.count delimiter + 1 ∧
    (split (text ++ [delimiter]) delimiter).getLast? = some [] ∧
    split [] delimiter = [[]] := by
  refine ⟨?_, ?_, ?_, ?_, ?_⟩
  · rw [split_eq_pieces]; exact pieces_no_delimiter delimiter text
  · rw [split_eq_pieces]; exact pieces_intercalate delimiter text
  · rw [split_eq_pieces]; exact pieces_length delimiter text
  · rw [split_eq_pieces, pieces_append_delimiter]; simp
  · rw [split_eq_pieces]; rfl

/-! ## `parse` -/

theorem parse_lines_ok (separator : Char) (count : Nat) (lines : List Str)
    (h : ∀ line ∈ lines, (split line separator).length = count) :
    parse_lines separator count lines = .ok (lines.map fun line => split line separator) := by
  induction lines with
  | nil => rfl
  | cons line rest ih =>
    have h1 := h line (List.mem_cons_self _ _)
    have h2 := ih fun l hl => h l (List.mem_cons_of_mem _ hl)
    simp [parse_lines, h1, h2]

theorem parse_lines_error (separator : Char) (count : Nat) (lines : List Str)
    (h : ∃ line ∈ lines, (split line separator).length ≠ count) :
    parse_lines separator count lines = .error parse_error := by
  induction lines with
  | nil => simp at h
  | cons line rest ih =>
    by_cases h1 : (split line separator).length = count
    · have h2 : ∃ l ∈ rest, (split l separator).length ≠ count := by
        obtain ⟨l, hl, hne⟩ := h
        rcases List.mem_cons.1 hl with rfl | hl
        · exact absurd h1 hne
        · exact ⟨l, hl, hne⟩
      simp [parse_lines, h1, ih h2]
    · simp [parse_lines, h1]

theorem parse_lines_ne_undefined (separator : Char) (count : Nat) (lines : List Str) :
    parse_lines separator count lines ≠ .undefined := by
  by_cases h : ∀ line ∈ lines, (split line separator).length = count
  · rw [parse_lines_ok _ _ _ h]; simp
  · rw [parse_lines_error _ _ _ (by simpa using h)]; simp

/-- The lines `parse` keeps: all lines of the body but the first and the last. -/
theorem parse_of_newline (response : Str) (separator : Char) (count : Nat)
    (h : '\n' ∈ response) :
    parse response separator count =
      parse_lines separator count (split response '\n').tail.dropLast := by
  have hlen := split_length response '\n'
  have hpos : 0 < response.count '\n' := List.count_pos_iff.2 h
  unfold parse
  cases ht : (split response '\n').tail with
  | nil =>
    have := congrArg List.length ht
    simp at this
    omega
  | cons line lines => rfl

/-- A body without a line feed makes `pop_back` act on an empty vector. -/
theorem parse_without_newline (response : Str) (separator : Char) (count : Nat)
    (h : '\n' ∉ response) : parse response separator count = .undefined := by
  have hlen := split_length response '\n'
  have hzero : response.count '\n' = 0 := List.count_eq_zero.2 h
  unfold parse
  cases ht : (split response '\n').tail with
  | nil => rfl
  | cons line lines =>
    have := congrArg List.length ht
    simp at this
    omega

/-- C1, at the failing input: for the empty body `split` returns the single
line `""`, `erase` removes it, and `pop_back` then acts on an empty vector, so
the behaviour of `parse` is undefined: it neither returns the empty list of
rows nor throws the parse error. -/
theorem parse_empty_body_undefined (separator : Char) (count : Nat) :
    parse [] separator count = Outcome.undefined := by
  rfl

/-! ## `find_usable_channel`: the row that is selected -/

theorem contains_iff_occurs (text pattern : Str) :
    contains text pattern = true ↔ pattern <:+: text := by
  induction text with
  | nil =>
    cases pattern with
    | nil => simp [contains]
    | cons c cs => simp [contains, List.isPrefixOf]
  | cons c rest ih =>
    simp only [contains, Bool.or_eq_true, ih, List.isPrefixOf_iff_prefix,
      List.infix_cons_iff]

theorem is_supported_iff_mem (option : Str) (supported_options : List Str) :
    is_supported option supported_options = true ↔ option ∈ supported_options := by
  induction supported_options with
  | nil => simp [is_supported]
  | cons o rest ih =>
    by_cases h : option = o
    · simp [is_supported, h]
    · simp [is_supported, h, ih]

theorem first_usable_of_first_match (before after : List (List Str)) (row : List Str)
    (hrow : field row 3 ∈ valid_channel_types)
    (hbefore : ∀ r ∈ before, field r 3 ∉ valid_channel_types) :
    first_usable (before ++ row :: after) = some ⟨field row 3, field row 2⟩ := by
  induction before with
  | nil => simp [first_usable, (is_supported_iff_mem _ _).2 hrow]
  | cons r rest ih =>
    have h1 : is_supported (field r 3) valid_channel_types = false := by
      have := hbefore r (List.mem_cons_self _ _)
      rw [← is_supported_iff_mem] at this
      simpa using this
    have h2 := ih fun x hx => hbefore x (List.mem_cons_of_mem _ hx)
    simp [first_usable, h1, h2]

theorem scan_stations_invalid (env : Env) (start_date : Str) (key : Str) (station : Station)
    (rest : Registry) (trace : List Event) (h : station.invalid = true) :
    scan_stations env start_date ((key, station) :: rest) trace =
      { stations := (key, station) :: (scan_stations env start_date rest trace).stations,
        trace := (scan_stations env start_date rest trace).trace,
        result := (scan_stations env start_date rest trace).result } := by
  rw [scan_stations]; simp [h]

theorem scan_stations_next (env : Env) (start_date : Str) (key : Str) (station : Station)
    (rest : Registry) (trace : List Event) (h : station.invalid = false)
    (hc : check_channels env start_date station trace = .ok none) :
    scan_stations env start_date ((key, station) :: rest) trace =
      { stations := (key, { station with invalid := true }) ::
          (scan_stations env start_date rest (trace ++
            [Event.request (Query.availability station.network station.station
              start_date)])).stations,
        trace := (scan_stations env start_date rest (trace ++
            [Event.request (Query.availability station.network station.station
              start_date)])).trace,
        result := (scan_stations env start_date rest (trace ++
            [Event.request (Query.availability station.network station.station
              start_date)])).result } := by
  rw [scan_stations]; simp [h, hc]

theorem scan_stations_leave (env : Env) (start_date : Str) (key : Str) (station : Station)
    (rest : Registry) (trace : List Event) (h : station.invalid = false)
    (hc : check_channels env start_date station trace ≠ .ok none) :
    scan_stations env start_date ((key, station) :: rest) trace =
      { stations := (key, station) :: rest,
        trace := trace ++
          [Event.request (Query.availability station.network station.station start_date)],
        result :=
          match check_channels env start_date station trace with
          | .ok (some channel) => .ok (some (station, channel))
          | .ok none => .ok none
          | .error message => .error message
          | .undefined => .undefined } := by
  rw [scan_stations]
  cases hcc : check_channels env start_date station trace with
  | ok found =>
    cases found with
    | none => exact absurd hcc hc
    | some channel => simp [h]
  | error message => simp [h]
  | undefined => simp [h]

theorem scan_stations_leave_result (env : Env) (start_date : Str) (key : Str)
    (station : Station) (rest : Registry) (trace : List Event) (h : station.invalid = false)
    (hc : check_channels env start_date station trace ≠ .ok none) :
    (scan_stations env start_date ((key, station) :: rest) trace).result ≠ .ok none := by
  rw [scan_stations_leave env start_date key station rest trace h hc]
  cases hcc : check_channels env start_date station trace with
  | ok found =>
    cases found with
    | none => exact absurd hcc hc
    | some channel => simp
  | error message => simp
  | undefined => simp

/-- When the loop goes through the entries `earlier` without leaving, it goes on
with the entries after them. -/
theorem scan_stations_append (env : Env) (start_date : Str) (later : Registry) :
    ∀ (earlier : Registry) (trace : List Event),
      (scan_stations env start_date earlier trace).result = .ok none →
      scan_stations env start_date (earlier ++ later) trace =
        { stations := (scan_stations env start_date earlier trace).stations ++
            (scan_stations env start_date later
              (scan_stations env start_date earlier trace).trace).stations,
          trace := (scan_stations env start_date later
              (scan_stations env start_date earlier trace).trace).trace,
          result := (scan_stations env start_date later
              (scan_stations env start_date earlier trace).trace).result } := by
  intro earlier
  induction earlier with
  | nil => intro trace _; simp [scan_stations]
  | cons entry rest ih =>
    intro trace h
    obtain ⟨key, station⟩ := entry
    simp only [List.cons_append]
    by_cases hinv : station.invalid = true
    · rw [scan_stations_invalid _ _ _ _ _ _ hinv] at h ⊢
      rw [scan_stations_invalid _ _ _ _ _ _ hinv, ih trace h]
      simp
    · have hinv2 : station.invalid = false := by simpa using hinv
      by_cases hc : check_channels env start_date station trace = .ok none
      · rw [scan_stations_next _ _ _ _ _ _ hinv2 hc] at h ⊢
        rw [scan_stations_next _ _ _ _ _ _ hinv2 hc, ih _ h]
        simp
      · exact absurd h (scan_stations_leave_result _ _ _ _ _ _ hinv2 hc)

/-- C2: when the loop of `find_usable_channel` reaches a station that is not
marked invalid, and the answer to its availability query has no "Error 404"
and parses as a table, then for the first row of the table whose channel code
(field 3) is a member of `valid_channel_types`, that is for a row with such a
code that no row with such a code precedes, `find_usable_channel` returns true
with this station selected and with the channel whose code is field 3 and whose
location is field 2 of that row. -/
theorem first_supported_row_selected (env : Env) (s : State)
    (earlier later : Registry) (key : Str) (station : Station)
    (body : Str) (before after : List (List Str)) (row : List Str)
    (hstations : s.stations = earlier ++ (key, station) :: later)
    (hearlier : (scan_stations env s.start_date earlier s.trace).result = .ok none)
    (hvalid : station.invalid = false)
    (hbody : env.request (scan_stations env s.start_date earlier s.trace).trace
        (Query.availability station.network station.station s.start_date) = .ok body)
    (hfound : ¬ not_found <:+: body)
    (hparse : parse body ' ' default_count = .ok (before ++ row :: after))
    (hrow : field row 3 ∈ valid_channel_types)
    (hbefore : ∀ r ∈ before, field r 3 ∉ valid_channel_types) :
    (find_usable_channel env s).2 = .ok true ∧
    (find_usable_channel env s).1.selected_station = station ∧
    (find_usable_channel env s).1.selected_channel = ⟨field row 3, field row 2⟩ := by
  have h404 : contains body not_found = false := by
    rw [← contains_iff_occurs] at hfound
    simpa using hfound
  have hfirst := first_usable_of_first_match before after row hrow hbefore
  have hscan : (scan_stations env s.start_date ((key, station) :: later)
      (scan_stations env s.start_date earlier s.trace).trace).result =
      .ok (some (station, ⟨field row 3, field row 2⟩)) := by
    have hc : check_channels env s.start_date station
        (scan_stations env s.start_date earlier s.trace).trace =
        .ok (some ⟨field row 3, field row 2⟩) := by
      simp [check_channels, hbody, h404, hparse, hfirst]
    rw [scan_stations_leave _ _ _ _ _ _ hvalid (by rw [hc]; simp), hc]
  unfold find_usable_channel
  rw [hstations, scan_stations_append env s.start_date _ earlier s.trace hearlier]
  simp only [hscan]
  simp

theorem first_supported_row_selected_witness :
    ((find_usable_channel lhz_bhz_env lhz_bhz_state).2 = .ok true ∧
      (find_usable_channel lhz_bhz_env lhz_bhz_state).1.selected_station = anmo ∧
      (find_usable_channel lhz_bhz_env lhz_bhz_state).1.selected_channel =
        ⟨field bhz_row 3, field bhz_row 2⟩) ∧
    (⟨field bhz_row 3, field bhz_row 2⟩ : Channel) = ⟨"BHZ".toList, "10".toList⟩ ∧
    field lhz_row 3 = "LHZ".toList :=
  ⟨first_supported_row_selected lhz_bhz_env lhz_bhz_state [("IUAFI".toList, afi)] []
      "IUANMO".toList anmo lhz_bhz_table [lhz_row] [] bhz_row
      (by decide) (by decide) (by decide) rfl
      (by rw [← contains_iff_occurs]; decide) (by decide) (by decide) (by decide),
    by decide, by decide⟩

/-! ## `find_available_stations`: the registry -/

theorem find_emplace_of_ne (key k : Str) (station : Station) (h : k ≠ key) :
    ∀ stations : Registry, (stations.emplace key station).find k = stations.find k := by
  intro stations
  induction stations with
  | nil => simp [Registry.emplace, Registry.find, h]
  | cons entry rest ih =>
    obtain ⟨k1, s1⟩ := entry
    unfold Registry.emplace
    by_cases hl : less key k1 = true
    · simp [hl, Registry.find, h]
    · by_cases he : key = k1
      · subst he
        simp [hl]
      · simp only [hl, he, if_false, Registry.find, ih]

theorem find_eq_none_iff (key : Str) :
    ∀ stations : Registry, stations.find key = none ↔ key ∉ stations.keys := by
  intro stations
  induction stations with
  | nil => simp [Registry.find, Registry.keys]
  | cons entry rest ih =>
    obtain ⟨k1, s1⟩ := entry
    unfold Registry.keys at ih ⊢
    rw [List.map_cons, List.mem_cons, Registry.find]
    by_cases he : key = k1
    · simp [he]
    · rw [if_neg he, ih]
      simp [he]

theorem emplace_perm (key : Str) (station : Station) :
    ∀ stations : Registry, stations.find key = none →
      (stations.emplace key station).Perm ((key, station) :: stations) := by
  intro stations
  induction stations with
  | nil => intro _; simp [Registry.emplace]
  | cons entry rest ih =>
    intro h
    obtain ⟨k1, s1⟩ := entry
    have hne : key ≠ k1 := by
      intro he; simp [Registry.find, he] at h
    have hrest : Registry.find key rest = none := by
      simpa [Registry.find, hne] using h
    unfold Registry.emplace
    by_cases hl : less key k1 = true
    · simp [hl]
    · simp only [hl, hne, if_false]
      exact ((ih hrest).cons (k1, s1)).trans (List.Perm.swap _ _ _)

theorem add_stations_find (k : Str) (station : Station) :
    ∀ (rows : List (List Str)) (stations : Registry),
      stations.find k = some station → (add_stations rows stations).find k = some station := by
  intro rows
  induction rows with
  | nil => intro stations h; simpa [add_stations] using h
  | cons row rest ih =>
    intro stations h
    simp only [add_stations]
    by_cases hnew : (Registry.find (field row 0 ++ field row 1) stations).isNone = true
    · rw [if_pos hnew]
      apply ih
      have hne : k ≠ field row 0 ++ field row 1 := by
        intro he
        rw [he] at h
        simp [h] at hnew
      rw [find_emplace_of_ne _ _ _ hne]
      exact h
    · rw [if_neg hnew]
      exact ih stations h

/-- The ways `find_available_stations` ends: after the request, which is
recorded in the trace, it throws the exception of the request, returns false
on "Error 404", throws or is undefined as `parse` is, or adds the parsed rows to
the map and returns true. Nothing else of the state changes. -/
theorem find_available_stations_cases (env : Env) (s : State) :
    (∃ message,
      env.request s.trace (Query.stations s.radius s.start_date) = .error message ∧
      find_available_stations env s =
        ({ s with trace := s.trace ++ [Event.request (Query.stations s.radius s.start_date)] },
          .error message)) ∨
    (∃ response,
      env.request s.trace (Query.stations s.radius s.start_date) = .ok response ∧
      contains response not_found = true ∧
      find_available_stations env s =
        ({ s with trace := s.trace ++ [Event.request (Query.stations s.radius s.start_date)] },
          .ok false)) ∨
    (∃ response result,
      env.request s.trace (Query.stations s.radius s.start_date) = .ok response ∧
      contains response not_found = false ∧
      parse response '|' default_count = result ∧ (∀ rows, result ≠ .ok rows) ∧
      find_available_stations env s =
        ({ s with trace := s.trace ++ [Event.request (Query.stations s.radius s.start_date)] },
          match result with
          | .ok _ => .ok true
          | .error message => .error message
          | .undefined => .undefined) ∧
      ∀ b, (find_available_stations env s).2 ≠ .ok b) ∨
    (∃ response rows,
      env.request s.trace (Query.stations s.radius s.start_date) = .ok response ∧
      contains response not_found = false ∧
      parse response '|' default_count = .ok rows ∧
      find_available_stations env s =
        ({ s with
            trace := s.trace ++ [Event.request (Query.stations s.radius s.start_date)],
            stations := add_stations rows s.stations },
          .ok true)) := by
  cases hreq : env.request s.trace (Query.stations s.radius s.start_date) with
  | error message =>
    left; exact ⟨message, rfl, by simp [find_available_stations, hreq]⟩
  | ok response =>
    right
    by_cases h404 : contains response not_found = true
    · left; exact ⟨response, rfl, h404, by simp [find_available_stations, hreq, h404]⟩
    · right
      have h404f : contains response not_found = false := by simpa using h404
      cases hp : parse response '|' default_count with
      | error message =>
        left
        exact ⟨response, .error message, rfl, h404f, hp, by simp,
          by simp [find_available_stations, hreq, h404f, hp],
          by simp [find_available_stations, hreq, h404f, hp]⟩
      | undefined =>
        left
        exact ⟨response, .undefined, rfl, h404f, hp, by simp,
          by simp [find_available_stations, hreq, h404f, hp],
          by simp [find_available_stations, hreq, h404f, hp]⟩
      | ok rows =>
        right
        exact ⟨response, rows, rfl, h404f, hp,
          by simp [find_available_stations, hreq, h404f, hp]⟩

/-- What `find_available_stations` does to the map: nothing, or the rows of the
parsed table are added. -/
theorem find_available_stations_stations (env : Env) (s : State) :
    (find_available_stations env s).1.stations = s.stations ∨
    ∃ rows, (find_available_stations env s).1.stations = add_stations rows s.stations := by
  rcases find_available_stations_cases env s with ⟨m, _, h⟩ | ⟨r, _, _, h⟩ |
    ⟨r, res, _, _, _, _, h, _⟩ | ⟨r, rows, _, _, _, h⟩
  · left; rw [h]
  · left; rw [h]
  · left; rw [h]
  · right; exact ⟨rows, by rw [h]⟩

/-- C3: every key of the map before `find_available_stations` maps to the same
`Station` after it, however the call ends and whatever the response holds: a
row whose key is in the map changes nothing of the entry, an entry marked
invalid included. -/
theorem existing_entries_kept (env : Env) (s : State) (key : Str) (station : Station)
    (h : s.stations.find key = some station) :
    (find_available_stations env s).1.stations.find key = some station := by
  rcases find_available_stations_stations env s with h1 | ⟨rows, h1⟩
  · rw [h1]; exact h
  · rw [h1]; exact add_stations_find key station rows s.stations h

theorem existing_entries_kept_witness :
    Registry.find "IUAFI".toList afi_state.stations = some afi ∧ afi.invalid = true ∧
    Registry.find "IUAFI".toList (find_available_stations afi_anmo_env afi_state).1.stations =
      some afi :=
  ⟨by decide, by decide,
    existing_entries_kept afi_anmo_env afi_state "IUAFI".toList afi (by decide)⟩

/-- C4, at the failing input: the map is empty and the response has the rows
of the stations (`A`, `BC`) and (`AB`, `C`), two different (network, station)
pairs. Both rows have the key `ABC`, so the call returns true with one
entry in the map, the one of the first row: the station `C` of the network `AB`
gets no entry. -/
theorem colliding_station_dropped :
    find_available_stations collision_env (initial_state [] [] 0) =
      ({ initial_state [] [] 0 with
          stations :=
            [("ABC".toList, ⟨"A".toList, "BC".toList, "1".toList, "2".toList, false⟩)],
          trace := [Event.request (Query.stations initial_radius [])] },
        .ok true) := by
  decide

/-! ## Every station is queried at most once -/

theorem channel_keys_append (a b : List Event) :
    channel_keys (a ++ b) = channel_keys a ++ channel_keys b := by
  simp [channel_keys, List.filterMap_append]

theorem channel_keys_availability (trace : List Event) (network station start_date : Str) :
    channel_keys (trace ++ [Event.request (Query.availability network station start_date)]) =
      channel_keys trace ++ [network ++ station] := by
  simp [channel_keys, List.filterMap_append, channel_key]

theorem scan_stations_queried (env : Env) (start_date : Str) :
    ∀ (todo : Registry) (trace : List Event),
      (channel_keys trace).Nodup → todo.keys.Nodup →
      (∀ e ∈ todo, e.1 = e.2.network ++ e.2.station) →
      (∀ e ∈ todo, e.2.invalid = false → e.1 ∉ channel_keys trace) →
      (∀ e ∈ todo, e.2.invalid = true → e.1 ∈ channel_keys trace) →
      (channel_keys (scan_stations env start_date todo trace).trace).Nodup ∧
      (∀ k ∈ channel_keys trace, k ∈ channel_keys (scan_stations env start_date todo trace).trace) ∧
      ((scan_stations env start_date todo trace).result = .ok none →
        (scan_stations env start_date todo trace).stations.keys = todo.keys ∧
        (∀ e ∈ (scan_stations env start_date todo trace).stations,
          e.1 = e.2.network ++ e.2.station) ∧
        (∀ e ∈ (scan_stations env start_date todo trace).stations,
          e.2.invalid = true ∧
          e.1 ∈ channel_keys (scan_stations env start_date todo trace).trace) ∧
        (∀ k ∈ channel_keys (scan_stations env start_date todo trace).trace,
          k ∈ channel_keys trace ∨ k ∈ todo.keys)) := by
  intro todo
  induction todo with
  | nil =>
    intro trace hnd _ _ _ _
    simp [scan_stations, hnd, Registry.keys]
  | cons entry rest ih =>
    intro trace hnd hkeys hcons hfresh hold
    obtain ⟨key, station⟩ := entry
    have hkey : key = station.network ++ station.station := hcons _ (List.mem_cons_self _ _)
    have hkeys' : key ∉ Registry.keys rest ∧ (Registry.keys rest).Nodup := by
      simpa [Registry.keys] using hkeys
    have hcons' : ∀ e ∈ rest, e.1 = e.2.network ++ e.2.station :=
      fun e he => hcons e (List.mem_cons_of_mem _ he)
    by_cases hinv : station.invalid = true
    · rw [scan_stations_invalid _ _ _ _ _ _ hinv]
      obtain ⟨h1, h2, h3⟩ := ih trace hnd hkeys'.2 hcons'
        (fun e he => hfresh e (List.mem_cons_of_mem _ he))
        (fun e he => hold e (List.mem_cons_of_mem _ he))
      refine ⟨h1, h2, fun hres => ?_⟩
      obtain ⟨h4, h5, h6, h7⟩ := h3 hres
      refine ⟨?_, ?_, ?_, ?_⟩
      · simp only [Registry.keys, List.map_cons] at h4 ⊢
        rw [h4]
      · intro e he
        rcases List.mem_cons.1 he with rfl | he
        · exact hkey
        · exact h5 e he
      · intro e he
        rcases List.mem_cons.1 he with rfl | he
        · exact ⟨hinv, h2 _ (hold _ (List.mem_cons_self _ _) hinv)⟩
        · exact h6 e he
      · intro k hk
        rcases h7 k hk with h | h
        · exact Or.inl h
        · exact Or.inr (by simp only [Registry.keys, List.map_cons] at h ⊢; exact List.mem_cons_of_mem _ h)
    · have hinv2 : station.invalid = false := by simpa using hinv
      have hnew : key ∉ channel_keys trace := hfresh _ (List.mem_cons_self _ _) hinv2
      have hnd1 : (channel_keys (trace ++ [Event.request
          (Query.availability station.network station.station start_date)])).Nodup := by
        rw [channel_keys_availability, ← hkey]
        exact List.Nodup.append hnd (List.nodup_singleton _) (by simpa using hnew)
      by_cases hc : check_channels env start_date station trace = .ok none
      · rw [scan_stations_next _ _ _ _ _ _ hinv2 hc]
        obtain ⟨h1, h2, h3⟩ := ih _ hnd1 hkeys'.2 hcons'
          (by
            intro e he hv
            rw [channel_keys_availability, ← hkey]
            have := hfresh e (List.mem_cons_of_mem _ he) hv
            have hne : e.1 ≠ key := by
              intro heq
              apply hkeys'.1
              rw [← heq]
              exact List.mem_map_of_mem _ he
            simp [this, hne])
          (by
            intro e he hv
            rw [channel_keys_availability]
            exact List.mem_append_left _ (hold e (List.mem_cons_of_mem _ he) hv))
        have hmono : ∀ k ∈ channel_keys trace, k ∈ channel_keys (scan_stations env start_date
            rest (trace ++ [Event.request (Query.availability station.network station.station
              start_date)])).trace := by
          intro k hk
          apply h2
          rw [channel_keys_availability]
          exact List.mem_append_left _ hk
        refine ⟨h1, hmono, fun hres => ?_⟩
        obtain ⟨h4, h5, h6, h7⟩ := h3 hres
        refine ⟨?_, ?_, ?_, ?_⟩
        · simp only [Registry.keys, List.map_cons] at h4 ⊢
          rw [h4]
        · intro e he
          rcases List.mem_cons.1 he with rfl | he
          · exact hkey
          · exact h5 e he
        · intro e he
          rcases List.mem_cons.1 he with rfl | he
          · refine ⟨rfl, h2 _ ?_⟩
            rw [channel_keys_availability, ← hkey]
            simp
          · exact h6 e he
        · intro k hk
          rcases h7 k hk with h | h
          · rw [channel_keys_availability, ← hkey] at h
            rcases List.mem_append.1 h with h | h
            · exact Or.inl h
            · right
              simp only [List.mem_singleton] at h
              simp [Registry.keys, h]
          · exact Or.inr (by simp only [Registry.keys, List.map_cons] at h ⊢; exact List.mem_cons_of_mem _ h)
      · rw [scan_stations_leave _ _ _ _ _ _ hinv2 hc]
        refine ⟨hnd1, ?_, fun hres => ?_⟩
        · intro k hk
          show k ∈ channel_keys (trace ++ _)
          rw [channel_keys_availability]
          exact List.mem_append_left _ hk
        · exfalso
          have := scan_stations_leave_result env start_date key station rest trace hinv2 hc
          rw [scan_stations_leave _ _ _ _ _ _ hinv2 hc] at this
          exact this hres

theorem emplace_queried_once (stations : Registry) (trace : List Event) (key : Str)
    (station : Station) (h : QueriedOnce stations trace)
    (hnone : stations.find key = none)
    (hkey : key = station.network ++ station.station) (hvalid : station.invalid = false) :
    QueriedOnce (stations.emplace key station) trace := by
  obtain ⟨h1, h2, h3, h4, h5, h6⟩ := h
  have hperm := emplace_perm key station stations hnone
  have hmem : ∀ e, e ∈ Registry.emplace key station stations ↔ e = (key, station) ∨ e ∈ stations :=
    fun e => by rw [hperm.mem_iff, List.mem_cons]
  have hkperm : (Registry.keys (Registry.emplace key station stations)).Perm
      (key :: Registry.keys stations) := by
    simpa [Registry.keys] using hperm.map Prod.fst
  have habsent : key ∉ Registry.keys stations := (find_eq_none_iff key stations).1 hnone
  refine ⟨h1, ?_, ?_, ?_, ?_, ?_⟩
  · rw [hkperm.nodup_iff]
    exact List.nodup_cons.2 ⟨habsent, h2⟩
  · intro e he
    rcases (hmem e).1 he with rfl | he
    · exact hkey
    · exact h3 e he
  · intro k hk
    rw [hkperm.mem_iff]
    exact List.mem_cons_of_mem _ (h4 k hk)
  · intro e he hv
    rcases (hmem e).1 he with rfl | he
    · exact fun hq => habsent (h4 _ hq)
    · exact h5 e he hv
  · intro e he hv
    rcases (hmem e).1 he with rfl | he
    · simp [hvalid] at hv
    · exact h6 e he hv

theorem add_stations_queried_once (trace : List Event) :
    ∀ (rows : List (List Str)) (stations : Registry),
      QueriedOnce stations trace → QueriedOnce (add_stations rows stations) trace := by
  intro rows
  induction rows with
  | nil => intro stations h; simpa [add_stations] using h
  | cons row rest ih =>
    intro stations h
    simp only [add_stations]
    by_cases hnew : (Registry.find (field row 0 ++ field row 1) stations).isNone = true
    · rw [if_pos hnew]
      exact ih _ (emplace_queried_once stations trace _ _ h (by simpa using hnew) rfl rfl)
    · rw [if_neg hnew]
      exact ih _ h

/-- The state and the value `find_usable_channel` returns, from where its loop
was left. -/
theorem find_usable_channel_scan (env : Env) (s : State) :
    (find_usable_channel env s).1.stations =
      (scan_stations env s.start_date s.stations s.trace).stations ∧
    (find_usable_channel env s).1.trace =
      (scan_stations env s.start_date s.stations s.trace).trace ∧
    (find_usable_channel env s).1.start_date = s.start_date ∧
    (find_usable_channel env s).1.radius = s.radius ∧
    (find_usable_channel env s).1.first_attempt = s.first_attempt ∧
    ((find_usable_channel env s).2 = .ok false ↔
      (scan_stations env s.start_date s.stations s.trace).result = .ok none) := by
  unfold find_usable_channel
  cases hres : (scan_stations env s.start_date s.stations s.trace).result with
  | ok found =>
    cases found with
    | none => simp [hres]
    | some pair => obtain ⟨station, channel⟩ := pair; simp [hres]
  | error message => simp [hres]
  | undefined => simp [hres]

/-- The ways `save_wav` ends: after the request, which is recorded in the
trace, it throws the exception of the request, or the download error for a
response whose first four characters are not `RIFF`; otherwise the file is
opened, and it throws if that fails or else writes the response to the file.
Nothing else of the state changes. -/
theorem save_wav_cases (env : Env) (s : State) :
    (∃ message,
      env.request s.trace (Query.timeseries s.selected_station.network
        s.selected_station.station s.selected_channel.location s.selected_channel.channel
        s.start_date s.start_time s.duration) = .error message ∧
      save_wav env s =
        ({ s with trace := s.trace ++ [Event.request (Query.timeseries
            s.selected_station.network s.selected_station.station
            s.selected_channel.location s.selected_channel.channel
            s.start_date s.start_time s.duration)] }, .error message)) ∨
    (∃ response,
      env.request s.trace (Query.timeseries s.selected_station.network
        s.selected_station.station s.selected_channel.location s.selected_channel.channel
        s.start_date s.start_time s.duration) = .ok response ∧
      response.take 4 ≠ riff ∧
      save_wav env s =
        ({ s with trace := s.trace ++ [Event.request (Query.timeseries
            s.selected_station.network s.selected_station.station
            s.selected_channel.location s.selected_channel.channel
            s.start_date s.start_time s.duration)] }, .error download_error)) ∨
    (∃ response,
      env.request s.trace (Query.timeseries s.selected_station.network
        s.selected_station.station s.selected_channel.location s.selected_channel.channel
        s.start_date s.start_time s.duration) = .ok response ∧
      response.take 4 = riff ∧
      save_wav env s =
        ({ s with trace := s.trace ++ [Event.request (Query.timeseries
            s.selected_station.network s.selected_station.station
            s.selected_channel.location s.selected_channel.channel
            s.start_date s.start_time s.duration)] ++ [Event.open_file (file_name s)] },
          .error save_error)) ∨
    (∃ response,
      env.request s.trace (Query.timeseries s.selected_station.network
        s.selected_station.station s.selected_channel.location s.selected_channel.channel
        s.start_date s.start_time s.duration) = .ok response ∧
      response.take 4 = riff ∧
      save_wav env s =
        ({ s with trace := s.trace ++ [Event.request (Query.timeseries
            s.selected_station.network s.selected_station.station
            s.selected_channel.location s.selected_channel.channel
            s.start_date s.start_time s.duration)] ++ [Event.open_file (file_name s)] ++
            [Event.write_file (file_name s) response] }, .ok ())) := by
  cases hreq : env.request s.trace (Query.timeseries s.selected_station.network
      s.selected_station.station s.selected_channel.location s.selected_channel.channel
      s.start_date s.start_time s.duration) with
  | error message => left; exact ⟨message, rfl, by simp [save_wav, hreq]⟩
  | ok response =>
    right
    by_cases hr : List.take 4 response = riff
    · right
      by_cases ho : env.file_opens (s.trace ++ [Event.request (Query.timeseries
          s.selected_station.network s.selected_station.station s.selected_channel.location
          s.selected_channel.channel s.start_date s.start_time s.duration)]) (file_name s) = true
      · right; exact ⟨response, rfl, hr, by simp [save_wav, hreq, hr, ho]⟩
      · left; exact ⟨response, rfl, hr, by simp [save_wav, hreq, hr, ho]⟩
    · left; exact ⟨response, rfl, hr, by simp [save_wav, hreq, hr]⟩

theorem save_wav_channel_keys (env : Env) (s : State) :
    channel_keys (save_wav env s).1.trace = channel_keys s.trace := by
  rcases save_wav_cases env s with ⟨m, _, h⟩ | ⟨r, _, _, h⟩ | ⟨r, _, _, h⟩ | ⟨r, _, _, h⟩ <;>
    rw [h] <;> simp [channel_keys, List.filterMap_append, channel_key]

theorem channel_keys_stations_query (trace : List Event) (radius : Binary32) (start_date : Str) :
    channel_keys (trace ++ [Event.request (Query.stations radius start_date)]) =
      channel_keys trace := by
  simp [channel_keys, List.filterMap_append, channel_key]

theorem attempt_queried_once (env : Env) (s : State) (h : QueriedOnce s.stations s.trace) :
    (channel_keys (attempt env s).1.trace).Nodup ∧
    ((attempt env s).2 = .searching →
      QueriedOnce (attempt env s).1.stations (attempt env s).1.trace) := by
  have hq : ∀ stations, QueriedOnce stations s.trace → QueriedOnce stations
      (s.trace ++ [Event.request (Query.stations s.radius s.start_date)]) := by
    intro stations hs
    unfold QueriedOnce at hs ⊢
    rw [channel_keys_stations_query]
    exact hs
  unfold attempt
  rcases find_available_stations_cases env s with ⟨m, _, hf⟩ | ⟨r, _, _, hf⟩ |
    ⟨r, res, _, _, _, hne, hf, _⟩ | ⟨r, rows, _, _, _, hf⟩
  · rw [hf]
    exact ⟨(hq _ h).1, by simp⟩
  · rw [hf]
    exact ⟨(hq _ h).1, fun _ => hq _ h⟩
  · rw [hf]
    cases res with
    | ok rows => exact absurd rfl (hne rows)
    | error message => exact ⟨(hq _ h).1, by simp⟩
    | undefined => exact ⟨(hq _ h).1, by simp⟩
  · rw [hf]
    have h1 := hq _ (add_stations_queried_once s.trace rows s.stations h)
    generalize hs1 : ({ s with
        trace := s.trace ++ [Event.request (Query.stations s.radius s.start_date)],
        stations := add_stations rows s.stations } : State) = s1
    have h1' : QueriedOnce s1.stations s1.trace := by rw [← hs1]; exact h1
    obtain ⟨g1, g2, g3, g4, g5, g6⟩ := h1'
    obtain ⟨e1, e2, _, _, _, e3⟩ := find_usable_channel_scan env s1
    obtain ⟨c1, c2, c3⟩ := scan_stations_queried env s1.start_date s1.stations s1.trace
      g1 g2 g3 g5 g6
    simp only []
    cases hfu : find_usable_channel env s1 with
    | mk s2 out =>
      rw [hfu] at e1 e2 e3
      simp only at e1 e2 e3
      rw [← e2] at c1 c2 c3
      rw [← e1] at c3
      cases out with
      | error message => exact ⟨c1, by simp⟩
      | undefined => exact ⟨c1, by simp⟩
      | ok b =>
        cases b with
        | false =>
          refine ⟨c1, fun _ => ?_⟩
          obtain ⟨d1, d2, d3, d4⟩ := c3 (e3.1 rfl)
          refine ⟨c1, ?_, d2, ?_, ?_, ?_⟩
          · show (Registry.keys s2.stations).Nodup
            rw [d1]; exact g2
          · intro k hk
            show k ∈ Registry.keys s2.stations
            rw [d1]
            rcases d4 k hk with hk | hk
            · exact g4 k hk
            · exact hk
          · intro e he hv
            have := (d3 e he).1
            simp [hv] at this
          · intro e he _
            exact (d3 e he).2
        | true =>
          simp only []
          have hk := save_wav_channel_keys env s2
          cases hsw : save_wav env s2 with
          | mk s3 out3 =>
            rw [hsw] at hk
            simp only at hk
            cases out3 with
            | error message => exact ⟨by rw [hk]; exact c1, by simp⟩
            | undefined => exact ⟨by rw [hk]; exact c1, by simp⟩
            | ok u => exact ⟨by rw [hk]; exact c1, by simp⟩

theorem iteration_queried_once (env : Env) (s : State) (h : QueriedOnce s.stations s.trace) :
    (channel_keys (iteration env s).1.trace).Nodup ∧
    ((iteration env s).2 = .searching →
      QueriedOnce (iteration env s).1.stations (iteration env s).1.trace) := by
  unfold iteration
  apply attempt_queried_once
  cases s.first_attempt <;> exact h

theorem run_queried_once (env : Env) :
    ∀ (n : Nat) (s : State), QueriedOnce s.stations s.trace →
      (channel_keys (run env n s).1.trace).Nodup ∧
      ((run env n s).2 = .searching →
        QueriedOnce (run env n s).1.stations (run env n s).1.trace) := by
  intro n
  induction n with
  | zero => intro s h; exact ⟨h.1, fun _ => h⟩
  | succ n ih =>
    intro s h
    obtain ⟨h1, h2⟩ := iteration_queried_once env s h
    rw [run]
    cases hit : iteration env s with
    | mk s1 status =>
      rw [hit] at h1 h2
      cases status with
      | searching => exact ih s1 (h2 rfl)
      | saved => exact ⟨h1, by simp⟩
      | failed message => exact ⟨h1, by simp⟩
      | undefined => exact ⟨h1, by simp⟩

theorem initial_state_queried_once (start_date start_time : Str) (duration : Int) :
    QueriedOnce (initial_state start_date start_time duration).stations
      (initial_state start_date start_time duration).trace := by
  simp [QueriedOnce, initial_state, channel_keys, Registry.keys]

/-! ### The trace only grows -/

theorem scan_stations_trace_grows (env : Env) (start_date : Str) :
    ∀ (todo : Registry) (trace : List Event),
      trace <+: (scan_stations env start_date todo trace).trace := by
  intro todo
  induction todo with
  | nil => intro trace; simp [scan_stations]
  | cons entry rest ih =>
    intro trace
    obtain ⟨key, station⟩ := entry
    by_cases hinv : station.invalid = true
    · rw [scan_stations_invalid _ _ _ _ _ _ hinv]
      exact ih trace
    · have hinv2 : station.invalid = false := by simpa using hinv
      by_cases hc : check_channels env start_date station trace = .ok none
      · rw [scan_stations_next _ _ _ _ _ _ hinv2 hc]
        exact (List.prefix_append _ _).trans (ih _)
      · rw [scan_stations_leave _ _ _ _ _ _ hinv2 hc]
        exact List.prefix_append _ _

theorem find_available_stations_trace (env : Env) (s : State) :
    (find_available_stations env s).1.trace =
      s.trace ++ [Event.request (Query.stations s.radius s.start_date)] := by
  rcases find_available_stations_cases env s with ⟨m, _, hf⟩ | ⟨r, _, _, hf⟩ |
    ⟨r, res, _, _, _, _, hf, _⟩ | ⟨r, rows, _, _, _, hf⟩ <;> rw [hf]

theorem save_wav_trace_grows (env : Env) (s : State) :
    s.trace <+: (save_wav env s).1.trace := by
  rcases save_wav_cases env s with ⟨m, _, h⟩ | ⟨r, _, _, h⟩ | ⟨r, _, _, h⟩ | ⟨r, _, _, h⟩ <;>
    rw [h] <;> simp [List.append_assoc]

/-- An attempt begins with the station query. -/
theorem attempt_trace_station_query (env : Env) (s : State) :
    s.trace ++ [Event.request (Query.stations s.radius s.start_date)] <+:
      (attempt env s).1.trace := by
  have h1 : s.trace ++ [Event.request (Query.stations s.radius s.start_date)] <+:
      (find_available_stations env s).1.trace := by
    rw [find_available_stations_trace]
  unfold attempt
  cases hf : find_available_stations env s with
  | mk s1 out =>
    rw [hf] at h1
    cases out with
    | error message => exact h1
    | undefined => exact h1
    | ok b =>
      cases b with
      | false => exact h1
      | true =>
        have h2 : s1.trace <+: (find_usable_channel env s1).1.trace := by
          rw [(find_usable_channel_scan env s1).2.1]
          exact scan_stations_trace_grows _ _ _ _
        simp only []
        cases hu : find_usable_channel env s1 with
        | mk s2 out2 =>
          rw [hu] at h2
          cases out2 with
          | error message => exact h1.trans h2
          | undefined => exact h1.trans h2
          | ok b2 =>
            cases b2 with
            | false => exact h1.trans h2
            | true =>
              have h3 := save_wav_trace_grows env s2
              simp only []
              cases hw : save_wav env s2 with
              | mk s3 out3 =>
                rw [hw] at h3
                cases out3 <;> exact (h1.trans h2).trans h3

theorem attempt_trace_grows (env : Env) (s : State) :
    s.trace <+: (attempt env s).1.trace :=
  (List.prefix_append _ _).trans (attempt_trace_station_query env s)

theorem iteration_trace_grows (env : Env) (s : State) :
    s.trace <+: (iteration env s).1.trace := by
  unfold iteration
  have := attempt_trace_grows env
    (if (!s.first_attempt) = true then { s with radius := s.radius.double } else s)
  cases hfa : s.first_attempt <;> simpa [hfa] using this

theorem run_trace_grows (env : Env) :
    ∀ (n : Nat) (s : State), s.trace <+: (run env n s).1.trace := by
  intro n
  induction n with
  | zero => intro s; exact List.prefix_refl _
  | succ n ih =>
    intro s
    have h1 := iteration_trace_grows env s
    rw [run]
    cases hit : iteration env s with
    | mk s1 status =>
      rw [hit] at h1
      cases status with
      | searching => exact h1.trans (ih s1)
      | saved => exact h1
      | failed message => exact h1
      | undefined => exact h1

/-- Running `m + j` iterations is running `m` iterations and, if the loop is
still going on, `j` more. -/
theorem run_add (env : Env) (j : Nat) :
    ∀ (m : Nat) (s : State),
      run env (m + j) s =
        if (run env m s).2 = .searching then run env j (run env m s).1 else run env m s := by
  intro m
  induction m with
  | zero => intro s; simp [run]
  | succ m ih =>
    intro s
    rw [Nat.succ_add, run, run]
    cases hit : iteration env s with
    | mk s1 status =>
      cases status with
      | searching => exact ih s1
      | saved => simp
      | failed message => simp
      | undefined => simp

/-- C5: in a run of the search loop from the state `main` enters it with,
whatever the requests are answered, no registry key occurs twice among the
availability queries sent up to any point of the run (`sent` is any prefix of
the trace after at most `n` iterations); and a station that is marked invalid
after `m` iterations is not queried in what follows up to iteration `n`. -/
theorem each_station_queried_once (env : Env) (start_date start_time : Str) (duration : Int)
    (n : Nat) :
    (∀ sent, sent <+: (run env n (initial_state start_date start_time duration)).1.trace →
      (channel_keys sent).Nodup) ∧
    (∀ m key station, m ≤ n →
      (key, station) ∈ (run env m (initial_state start_date start_time duration)).1.stations →
      station.invalid = true →
      key ∉ channel_keys
        ((run env n (initial_state start_date start_time duration)).1.trace.drop
          (run env m (initial_state start_date start_time duration)).1.trace.length)) := by
  have hinit := initial_state_queried_once start_date start_time duration
  constructor
  · rintro sent ⟨rest, hrest⟩
    have := (run_queried_once env n _ hinit).1
    rw [← hrest, channel_keys_append] at this
    exact this.of_append_left
  · intro m key station hmn hmem hinv
    obtain ⟨j, rfl⟩ := Nat.exists_eq_add_of_le hmn
    rw [run_add]
    by_cases hs : (run env m (initial_state start_date start_time duration)).2 = .searching
    · rw [if_pos hs]
      obtain ⟨rest, hrest⟩ := run_trace_grows env j
        (run env m (initial_state start_date start_time duration)).1
      have hq := (run_queried_once env m _ hinit).2 hs
      have hnd := (run_queried_once env j _ hq).1
      rw [← hrest, List.drop_left]
      rw [← hrest, channel_keys_append] at hnd
      have hin := hq.2.2.2.2.2 _ hmem hinv
      exact fun hc => (List.nodup_append.1 hnd).2.2 hin hc
    · rw [if_neg hs]
      simp [channel_keys]

theorem each_station_queried_once_witness :
    channel_keys (run no_channels_env 2 example_start).1.trace =
      ["IUAFI".toList, "IUANMO".toList] ∧
    (channel_keys (run no_channels_env 2 example_start).1.trace).Nodup ∧
    "IUAFI".toList ∉ channel_keys
      ((run no_channels_env 2 example_start).1.trace.drop
        (run no_channels_env 1 example_start).1.trace.length) :=
  ⟨by decide,
    (each_station_queried_once no_channels_env "2017-03-01".toList "12:00:00".toList 1800 2).1
      _ (List.prefix_refl _),
    (each_station_queried_once no_channels_env "2017-03-01".toList "12:00:00".toList 1800 2).2
      1 "IUAFI".toList ⟨"IU".toList, "AFI".toList, "1.0".toList, "2.0".toList, true⟩
      (by decide) (by decide) rfl⟩

/-! ## The radius of the station queries -/

theorem station_radii_append (a b : List Event) :
    station_radii (a ++ b) = station_radii a ++ station_radii b := by
  simp [station_radii, List.filterMap_append]

theorem scan_stations_station_radii (env : Env) (start_date : Str) :
    ∀ (todo : Registry) (trace : List Event),
      station_radii (scan_stations env start_date todo trace).trace = station_radii trace := by
  intro todo
  induction todo with
  | nil => intro trace; simp [scan_stations]
  | cons entry rest ih =>
    intro trace
    obtain ⟨key, station⟩ := entry
    by_cases hinv : station.invalid = true
    · rw [scan_stations_invalid _ _ _ _ _ _ hinv]
      exact ih trace
    · have hinv2 : station.invalid = false := by simpa using hinv
      by_cases hc : check_channels env start_date station trace = .ok none
      · rw [scan_stations_next _ _ _ _ _ _ hinv2 hc]
        simp only [ih]
        simp [station_radii, List.filterMap_append, station_radius]
      · rw [scan_stations_leave _ _ _ _ _ _ hinv2 hc]
        simp [station_radii, List.filterMap_append, station_radius]

theorem save_wav_station_radii (env : Env) (s : State) :
    station_radii (save_wav env s).1.trace = station_radii s.trace ∧
    (save_wav env s).1.radius = s.radius := by
  rcases save_wav_cases env s with ⟨m, _, h⟩ | ⟨r, _, _, h⟩ | ⟨r, _, _, h⟩ | ⟨r, _, _, h⟩ <;>
    rw [h] <;> simp [station_radii, List.filterMap_append, station_radius]

theorem find_available_stations_radius (env : Env) (s : State) :
    (find_available_stations env s).1.radius = s.radius ∧
    (find_available_stations env s).1.start_date = s.start_date := by
  rcases find_available_stations_cases env s with ⟨m, _, hf⟩ | ⟨r, _, _, hf⟩ |
    ⟨r, res, _, _, _, _, hf, _⟩ | ⟨r, rows, _, _, _, hf⟩ <;> rw [hf] <;> exact ⟨rfl, rfl⟩

/-- An attempt sends one station query, with the radius of the state, which it
does not change; when the loop goes on after it, `first_attempt` is false. -/
theorem attempt_station_radii (env : Env) (s : State) :
    station_radii (attempt env s).1.trace = station_radii s.trace ++ [s.radius] ∧
    (attempt env s).1.radius = s.radius ∧
    ((attempt env s).2 = .searching → (attempt env s).1.first_attempt = false) := by
  have h1 : station_radii (find_available_stations env s).1.trace =
      station_radii s.trace ++ [s.radius] := by
    rw [find_available_stations_trace, station_radii_append]
    simp [station_radii, station_radius]
  have h1r := (find_available_stations_radius env s).1
  unfold attempt
  cases hf : find_available_stations env s with
  | mk s1 out =>
    rw [hf] at h1 h1r
    simp only at h1 h1r
    cases out with
    | error message => exact ⟨h1, h1r, by simp⟩
    | undefined => exact ⟨h1, h1r, by simp⟩
    | ok b =>
      cases b with
      | false => exact ⟨h1, h1r, by simp⟩
      | true =>
        obtain ⟨_, e2, _, e4, _, _⟩ := find_usable_channel_scan env s1
        have h2 : station_radii (find_usable_channel env s1).1.trace =
            station_radii s.trace ++ [s.radius] := by
          rw [e2, scan_stations_station_radii, h1]
        simp only []
        cases hu : find_usable_channel env s1 with
        | mk s2 out2 =>
          rw [hu] at h2 e4
          simp only at h2 e4
          cases out2 with
          | error message => exact ⟨h2, by rw [e4, h1r], by simp⟩
          | undefined => exact ⟨h2, by rw [e4, h1r], by simp⟩
          | ok b2 =>
            cases b2 with
            | false => exact ⟨h2, by rw [← h1r, ← e4], by simp⟩
            | true =>
              obtain ⟨w1, w2⟩ := save_wav_station_radii env s2
              simp only []
              cases hw : save_wav env s2 with
              | mk s3 out3 =>
                rw [hw] at w1 w2
                simp only at w1 w2
                cases out3 <;> exact ⟨by rw [w1, h2], by rw [w2, e4, h1r], by simp⟩

/-- The radius an iteration from the state `s` sends its station query with. -/
theorem iteration_station_radii (env : Env) (s : State) :
    station_radii (iteration env s).1.trace =
      station_radii s.trace ++ [if s.first_attempt then s.radius else s.radius.double] ∧
    (iteration env s).1.radius = (if s.first_attempt then s.radius else s.radius.double) ∧
    ((iteration env s).2 = .searching → (iteration env s).1.first_attempt = false) := by
  unfold iteration
  have := attempt_station_radii env
    (if (!s.first_attempt) = true then { s with radius := s.radius.double } else s)
  cases hfa : s.first_attempt <;> simpa [hfa] using this

theorem run_one (env : Env) (s : State) : (run env 1 s).1 = (iteration env s).1 := by
  rw [run]
  cases hit : iteration env s with
  | mk s1 status => cases status <;> simp [run]

theorem run_searching_of_succ (env : Env) (k : Nat) (s : State)
    (h : (run env (k + 1) s).2 = .searching) : (run env k s).2 = .searching := by
  rw [run_add] at h
  by_cases hs : (run env k s).2 = .searching
  · exact hs
  · rw [if_neg hs] at h; exact h

/-- After `k` failed iterations from the first attempt on, the next station
query is sent with the radius doubled `k` times, and the `k` queries sent so
far had the radius doubled 0, 1, ..., `k - 1` times. -/
theorem run_station_radii (env : Env) (s : State) (hfirst : s.first_attempt = true) :
    ∀ k : Nat, (run env k s).2 = .searching →
      station_radii (run env k s).1.trace =
        station_radii s.trace ++ (List.range k).map (fun i => Binary32.double^[i] s.radius) ∧
      (if (run env k s).1.first_attempt then (run env k s).1.radius
        else (run env k s).1.radius.double) = Binary32.double^[k] s.radius ∧
      (0 < k → (run env k s).1.first_attempt = false) := by
  intro k
  induction k with
  | zero => intro _; simp [run, hfirst]
  | succ k ih =>
    intro h
    have hk := run_searching_of_succ env k s h
    obtain ⟨ih1, ih2, _⟩ := ih hk
    have hrun : run env (k + 1) s = run env 1 (run env k s).1 := by
      rw [run_add, if_pos hk]
    obtain ⟨i1, i2, i3⟩ := iteration_station_radii env (run env k s).1
    have hsearch : (iteration env (run env k s).1).2 = .searching := by
      rw [hrun, run] at h
      cases hit : iteration env (run env k s).1 with
      | mk s1 status =>
        rw [hit] at h
        cases status <;> simp_all [run]
    rw [hrun, run_one]
    refine ⟨?_, ?_, fun _ => i3 hsearch⟩
    · rw [i1, ih1, ih2, List.range_succ, List.map_append, List.append_assoc]
      rfl
    · rw [i3 hsearch, i2, ih2]
      simp [Function.iterate_succ_apply']

theorem double_iterate_initial (k : Nat) :
    Binary32.double^[k] initial_radius =
      if k ≤ 131 then .finite 13421773 ((k : Int) - 27) else .infinity := by
  induction k with
  | zero => rfl
  | succ k ih =>
    rw [Function.iterate_succ_apply', ih]
    by_cases h : k ≤ 131
    · rw [if_pos h]
      by_cases h2 : k + 1 ≤ 131
      · rw [if_pos h2]
        simp only [Binary32.double, Binary32.max_exponent]
        rw [if_pos (by omega)]
        congr 1
        push_cast
        ring
      · rw [if_neg h2]
        simp only [Binary32.double, Binary32.max_exponent]
        rw [if_neg (by omega)]
    · rw [if_neg h, if_neg (by omega)]
      rfl

theorem toRat_double_iterate_initial (k : Nat) (h : k ≤ 131) :
    (Binary32.double^[k] initial_radius).toRat =
      some ((13421773 : ℚ) * (2 : ℚ) ^ (-27 : Int) * (2 : ℚ) ^ k) := by
  rw [double_iterate_initial, if_pos h]
  simp only [Binary32.toRat, Option.some.injEq]
  rw [sub_eq_add_neg, zpow_add₀ (by norm_num : (2 : ℚ) ≠ 0), zpow_natCast]
  push_cast
  ring

theorem run_succ_station_radii (env : Env) (s : State) (hfirst : s.first_attempt = true)
    (k : Nat) (h : (run env k s).2 = .searching) :
    station_radii (run env (k + 1) s).1.trace =
      station_radii s.trace ++
        (List.range (k + 1)).map (fun i => Binary32.double^[i] s.radius) := by
  obtain ⟨h1, h2, _⟩ := run_station_radii env s hfirst k h
  have hrun : run env (k + 1) s = run env 1 (run env k s).1 := by
    rw [run_add, if_pos h]
  rw [hrun, run_one, (iteration_station_radii env (run env k s).1).1, h1, h2,
    List.range_succ, List.map_append, List.append_assoc]
  rfl

/-- When every request is answered with "Error 404" the loop never ends. -/
theorem run_not_found_env (k : Nat) : ∀ s : State, (run not_found_env k s).2 = .searching := by
  induction k with
  | zero => intro s; rfl
  | succ k ih =>
    intro s
    have hatt : ∀ s0 : State, (attempt not_found_env s0).2 = .searching := by
      intro s0
      unfold attempt
      rcases find_available_stations_cases not_found_env s0 with ⟨m, hr, _⟩ | ⟨r, _, _, hf⟩ |
        ⟨r, res, hr, h404, _⟩ | ⟨r, rows, hr, h404, _⟩
      · simp [not_found_env] at hr
      · rw [hf]
      · simp only [not_found_env, Except.ok.injEq] at hr
        rw [← hr] at h404
        exact absurd h404 (by decide)
      · simp only [not_found_env, Except.ok.injEq] at hr
        rw [← hr] at h404
        exact absurd h404 (by decide)
    rw [run]
    have hit := hatt (if (!s.first_attempt) = true then { s with radius := s.radius.double } else s)
    cases hi : iteration not_found_env s with
    | mk s1 status =>
      unfold iteration at hi
      rw [hi] at hit
      simp only at hit
      rw [hit]
      exact ih s1

/-- C6, amended: if the first `k` iterations of the loop all fail, the station
queries sent up to the one of iteration `k + 1` have the radii `.1f` doubled
0, 1, ..., `k` times in binary32 arithmetic: the first query has `.1f` itself,
the query `k + 1` has it doubled `k` times. Doubled `k` times, `.1f` is
`13421773 * 2 ^ (k - 27)`, which is exactly `.1f` times `2 ^ k`, as long as
`k ≤ 131`, and it is infinity from `k = 132` on. No number of iterations and no
radius stops the loop: when every answer is "Error 404" the loop is still going
on after `k` iterations, whatever `k` is. -/
theorem radius_doubles_until_overflow (env : Env) (start_date start_time : Str)
    (duration : Int) (k : Nat)
    (hfail : (run env k (initial_state start_date start_time duration)).2 = .searching) :
    station_radii (run env (k + 1) (initial_state start_date start_time duration)).1.trace =
      (List.range (k + 1)).map (fun i => Binary32.double^[i] initial_radius) ∧
    Binary32.double^[k] initial_radius =
      (if k ≤ 131 then .finite 13421773 ((k : Int) - 27) else .infinity) ∧
    (k ≤ 131 → (Binary32.double^[k] initial_radius).toRat =
      some ((13421773 : ℚ) * (2 : ℚ) ^ (-27 : Int) * (2 : ℚ) ^ k)) ∧
    (run not_found_env k (initial_state start_date start_time duration)).2 = .searching := by
  refine ⟨?_, double_iterate_initial k, toRat_double_iterate_initial k, run_not_found_env k _⟩
  have := run_succ_station_radii env (initial_state start_date start_time duration) rfl k hfail
  simpa [initial_state, station_radii] using this

theorem radius_doubles_until_overflow_witness :
    (run not_found_env 3 example_start).2 = .searching ∧
    station_radii (run not_found_env 4 example_start).1.trace =
      (List.range 4).map (fun i => Binary32.double^[i] initial_radius) :=
  ⟨by decide,
    (radius_doubles_until_overflow not_found_env "2017-03-01".toList "12:00:00".toList 1800 3
      (by decide)).1⟩

/-- C6 fails as stated: when every request is answered with "Error 404", the
first 132 iterations fail and the station query of iteration 133 is sent with
the radius infinity, which is not `.1f` times `2 ^ 132`, nor any number. -/
theorem radius_infinite_after_132_failures :
    (run not_found_env 132 example_start).2 = .searching ∧
    (station_radii (run not_found_env 133 example_start).1.trace)[132]? =
      some Binary32.infinity ∧
    ¬ ∃ radius, (station_radii (run not_found_env 133 example_start).1.trace)[132]? =
        some radius ∧
      radius.toRat = some ((13421773 : ℚ) * (2 : ℚ) ^ (-27 : Int) * (2 : ℚ) ^ 132) := by
  have hs := run_not_found_env 132 example_start
  have hr := run_succ_station_radii not_found_env example_start rfl 132 hs
  have hq : (station_radii (run not_found_env 133 example_start).1.trace)[132]? =
      some Binary32.infinity := by
    rw [hr]
    have h0 : station_radii example_start.trace = [] := rfl
    rw [h0, List.nil_append, List.getElem?_map, List.getElem?_range (by norm_num)]
    have : example_start.radius = initial_radius := rfl
    rw [this, Option.map_some', double_iterate_initial, if_neg (by norm_num)]
  refine ⟨hs, hq, ?_⟩
  rintro ⟨radius, h1, h2⟩
  rw [hq] at h1
  cases h1
  simp [Binary32.toRat] at h2

/-! ## `save_wav` -/

theorem take_four_eq_riff_iff (response : Str) : response.take 4 = riff ↔ riff <+: response := by
  rw [List.prefix_iff_eq_take, show riff.length = 4 from rfl]
  exact eq_comm

/-- C7: for a waveform response of any length, `save_wav` goes on to open the
output file exactly when the response begins with the four characters `RIFF`;
for every other response, one shorter than four characters included, it throws
the download error with nothing but the request in the trace: no file was
opened or written. -/
theorem riff_required (env : Env) (s : State) (response : Str)
    (hresponse : env.request s.trace (Query.timeseries s.selected_station.network
      s.selected_station.station s.selected_channel.location s.selected_channel.channel
      s.start_date s.start_time s.duration) = .ok response) :
    ((save_wav env s).2 ≠ .error download_error ↔ riff <+: response) ∧
    (riff <+: response → Event.open_file (file_name s) ∈ (save_wav env s).1.trace) ∧
    (¬ riff <+: response →
      save_wav env s =
        ({ s with trace := s.trace ++ [Event.request (Query.timeseries
            s.selected_station.network s.selected_station.station
            s.selected_channel.location s.selected_channel.channel
            s.start_date s.start_time s.duration)] }, .error download_error)) := by
  have hne : save_error ≠ download_error := by decide
  rcases save_wav_cases env s with ⟨m, hr, _⟩ | ⟨r, hr, ht, h⟩ | ⟨r, hr, ht, h⟩ |
    ⟨r, hr, ht, h⟩
  · rw [hresponse] at hr; cases hr
  · rw [hresponse] at hr; cases hr
    have ht2 : ¬ riff <+: response := fun hp => ht ((take_four_eq_riff_iff _).2 hp)
    rw [h]
    exact ⟨by simp [ht2], fun hp => absurd hp ht2, fun _ => rfl⟩
  · rw [hresponse] at hr; cases hr
    rw [take_four_eq_riff_iff] at ht
    rw [h]
    refine ⟨by simp [ht, hne], fun _ => by simp, fun hn => absurd ht hn⟩
  · rw [hresponse] at hr; cases hr
    rw [take_four_eq_riff_iff] at ht
    rw [h]
    refine ⟨by simp [ht], fun _ => by simp, fun hn => absurd ht hn⟩

/-- C8, amended: for a waveform response that begins with `RIFF`, the file
`save_wav` opens, and writes the response to when it returns, is named by the
network code, a space, the station code, a space, the channel code, a space,
the date, a space, the time with every `:` replaced by `-`, a space, the
duration in decimal, and `.wav`. -/
theorem output_file_name (env : Env) (s : State) (response : Str)
    (hresponse : env.request s.trace (Query.timeseries s.selected_station.network
      s.selected_station.station s.selected_channel.location s.selected_channel.channel
      s.start_date s.start_time s.duration) = .ok response)
    (hriff : riff <+: response) :
    (∃ written, (save_wav env s).1.trace =
      s.trace ++ [Event.request (Query.timeseries s.selected_station.network
        s.selected_station.station s.selected_channel.location s.selected_channel.channel
        s.start_date s.start_time s.duration)] ++
      Event.open_file
        (s.selected_station.network ++ [' '] ++ s.selected_station.station ++ [' '] ++
          s.selected_channel.channel ++ [' '] ++ s.start_date ++ [' '] ++
          s.start_time.map (fun c => if c = ':' then '-' else c) ++ [' '] ++
          stream_int s.duration ++ ['.', 'w', 'a', 'v']) :: written) ∧
    ((save_wav env s).2 = .ok () →
      Event.write_file
        (s.selected_station.network ++ [' '] ++ s.selected_station.station ++ [' '] ++
          s.selected_channel.channel ++ [' '] ++ s.start_date ++ [' '] ++
          s.start_time.map (fun c => if c = ':' then '-' else c) ++ [' '] ++
          stream_int s.duration ++ ['.', 'w', 'a', 'v']) response ∈
        (save_wav env s).1.trace) := by
  have hname : s.selected_station.network ++ [' '] ++ s.selected_station.station ++ [' '] ++
      s.selected_channel.channel ++ [' '] ++ s.start_date ++ [' '] ++
      s.start_time.map (fun c => if c = ':' then '-' else c) ++ [' '] ++
      stream_int s.duration ++ ['.', 'w', 'a', 'v'] = file_name s := rfl
  rw [hname]
  rcases save_wav_cases env s with ⟨m, hr, _⟩ | ⟨r, hr, ht, h⟩ | ⟨r, hr, ht, h⟩ |
    ⟨r, hr, ht, h⟩
  · rw [hresponse] at hr; cases hr
  · rw [hresponse] at hr; cases hr
    exact absurd ((take_four_eq_riff_iff _).2 hriff) ht
  · rw [hresponse] at hr; cases hr
    rw [h]
    exact ⟨⟨[], by simp⟩, by simp⟩
  · rw [hresponse] at hr; cases hr
    rw [h]
    exact ⟨⟨[Event.write_file (file_name s) response], by simp⟩, by simp⟩

theorem riff_required_witness :
    (save_wav html_env selected_state).2 = .error download_error ∧
    (save_wav empty_env selected_state).2 = .error download_error ∧
    (save_wav found_env selected_state).2 ≠ .error download_error :=
  ⟨congrArg Prod.snd
      ((riff_required html_env selected_state "<html>".toList rfl).2.2 (by decide)),
    congrArg Prod.snd ((riff_required empty_env selected_state [] rfl).2.2 (by decide)),
    (riff_required found_env selected_state riff_body rfl).1.2 (by decide)⟩

theorem output_file_name_witness :
    Event.write_file "IU ANMO BHZ 2017-03-01 12-00-00 1800.wav".toList riff_body ∈
      (save_wav found_env selected_state).1.trace :=
  (output_file_name found_env selected_state riff_body rfl (by decide)).2 (by decide)

/-- C8 fails as stated: in a run that finds the station `ANMO` of the network
`IU` and its channel `BHZ`, for the date 2017-03-01, the time 12:00:00 and the
duration 1800, the file that is opened is `IU ANMO BHZ 2017-03-01 12-00-00
1800.wav`, with a space between the network code and the station code; no file
named `IUANMO BHZ 2017-03-01 12-00-00 1800.wav` is opened. -/
theorem file_name_separates_network_and_station :
    (run found_env 1 example_start).2 = .saved ∧
    Event.open_file "IU ANMO BHZ 2017-03-01 12-00-00 1800.wav".toList ∈
      (run found_env 1 example_start).1.trace ∧
    Event.open_file "IUANMO BHZ 2017-03-01 12-00-00 1800.wav".toList ∉
      (run found_env 1 example_start).1.trace := by
  decide

/-! ## An iteration whose station query finds nothing -/

/-- The state an iteration makes its attempt from. -/
theorem iteration_eq_attempt (env : Env) (s : State) :
    iteration env s =
      attempt env { s with radius := if s.first_attempt then s.radius else s.radius.double } := by
  unfold iteration
  rcases s with ⟨_, _, _, _, first_attempt, _, _, _, _⟩
  cases first_attempt <;> rfl

/-- The product `radius * 2` of a finite value: the same mantissa with the
next exponent, which is twice the value, unless the exponent is the largest
one already: then it is infinity. -/
theorem double_finite (m : Nat) (e : Int) :
    (e + 1 ≤ Binary32.max_exponent →
      (Binary32.finite m e).double = .finite m (e + 1) ∧
      (Binary32.finite m e).double.toRat = some (2 * ((m : ℚ) * (2 : ℚ) ^ e))) ∧
    (Binary32.max_exponent < e + 1 → (Binary32.finite m e).double = .infinity) := by
  constructor
  · intro h
    have hd : (Binary32.finite m e).double = .finite m (e + 1) := by
      simp only [Binary32.double]
      rw [if_pos h]
    refine ⟨hd, ?_⟩
    rw [hd]
    simp only [Binary32.toRat, Option.some.injEq]
    rw [zpow_add_one₀ (by norm_num : (2 : ℚ) ≠ 0)]
    ring
  · intro h
    simp only [Binary32.double]
    rw [if_neg (by omega)]

/-- C10, amended: when the station query of an iteration, sent with the radius
`radius`, is answered with a body that contains "Error 404",
`find_available_stations` returns false and changes nothing but the trace,
which gets the station query; the iteration ends there, with the map as it
was, `first_attempt` false and no other request sent, and the loop goes on: the
next iteration begins with a station query for `radius * 2` in binary32
arithmetic. That is exactly twice the radius when the radius is finite and its
exponent is not the largest one; it is infinity when the exponent is the largest
one (the doubling overflows) and when the radius is infinity already. -/
theorem not_found_widens_search (env : Env) (s : State) (body : Str) (radius : Binary32)
    (hradius : radius = if s.first_attempt then s.radius else s.radius.double)
    (hbody : env.request s.trace (Query.stations radius s.start_date) = .ok body)
    (h404 : not_found <:+: body) :
    find_available_stations env { s with radius := radius } =
      ({ s with
          radius := radius,
          trace := s.trace ++ [Event.request (Query.stations radius s.start_date)] },
        .ok false) ∧
    iteration env s =
      ({ s with
          radius := radius,
          first_attempt := false,
          trace := s.trace ++ [Event.request (Query.stations radius s.start_date)] },
        .searching) ∧
    (∃ rest, (iteration env (iteration env s).1).1.trace =
      s.trace ++ [Event.request (Query.stations radius s.start_date)] ++
        Event.request (Query.stations radius.double s.start_date) :: rest) ∧
    (∀ m e, radius = .finite m e → e + 1 ≤ Binary32.max_exponent →
      radius.toRat = some ((m : ℚ) * (2 : ℚ) ^ e) ∧
      radius.double = .finite m (e + 1) ∧
      radius.double.toRat = some (2 * ((m : ℚ) * (2 : ℚ) ^ e))) ∧
    (∀ m e, radius = .finite m e → Binary32.max_exponent < e + 1 →
      radius.double = .infinity) ∧
    (radius = .infinity → radius.double = .infinity) := by
  have hc : contains body not_found = true := (contains_iff_occurs _ _).2 h404
  have h1 : find_available_stations env { s with radius := radius } =
      ({ s with
          radius := radius,
          trace := s.trace ++ [Event.request (Query.stations radius s.start_date)] },
        .ok false) := by
    simp only [find_available_stations, hbody, hc, if_true]
  have h2 : iteration env s =
      ({ s with
          radius := radius,
          first_attempt := false,
          trace := s.trace ++ [Event.request (Query.stations radius s.start_date)] },
        .searching) := by
    rw [iteration_eq_attempt, ← hradius]
    unfold attempt
    rw [h1]
  refine ⟨h1, h2, ?_, ?_, ?_, ?_⟩
  · rw [h2]
    obtain ⟨rest, hrest⟩ := attempt_trace_station_query env
      { s with
        radius := radius.double,
        first_attempt := false,
        trace := s.trace ++ [Event.request (Query.stations radius s.start_date)] }
    refine ⟨rest, ?_⟩
    rw [iteration_eq_attempt]
    simp only [Bool.false_eq_true, if_false] at hrest ⊢
    rw [← hrest]
    simp
  · intro m e hr he
    rw [hr]
    exact ⟨rfl, ((double_finite m e).1 he).1, ((double_finite m e).1 he).2⟩
  · intro m e hr he
    rw [hr]
    exact (double_finite m e).2 he
  · intro hr
    rw [hr]
    rfl

theorem not_found_widens_search_witness :
    iteration not_found_env example_start =
      ({ example_start with
          radius := initial_radius,
          first_attempt := false,
          trace := [] ++ [Event.request (Query.stations initial_radius "2017-03-01".toList)] },
        .searching) ∧
    (∃ rest, (iteration not_found_env (iteration not_found_env example_start).1).1.trace =
      [] ++ [Event.request (Query.stations initial_radius "2017-03-01".toList)] ++
        Event.request (Query.stations initial_radius.double "2017-03-01".toList) :: rest) ∧
    initial_radius.double = .finite 13421773 (-27 + 1) ∧
    initial_radius.double.toRat = some (2 * ((13421773 : ℚ) * (2 : ℚ) ^ (-27 : Int))) :=
  ⟨(not_found_widens_search not_found_env example_start not_found initial_radius rfl rfl
      (List.infix_refl _)).2.1,
    (not_found_widens_search not_found_env example_start not_found initial_radius rfl rfl
      (List.infix_refl _)).2.2.1,
    ((not_found_widens_search not_found_env example_start not_found initial_radius rfl rfl
      (List.infix_refl _)).2.2.2.1 13421773 (-27) rfl (by decide)).2.1,
    ((not_found_widens_search not_found_env example_start not_found initial_radius rfl rfl
      (List.infix_refl _)).2.2.2.1 13421773 (-27) rfl (by decide)).2.2⟩

/-- C10 fails as stated: when every request is answered with "Error 404", the
station query of iteration 132 is sent with the radius `13421773 * 2 ^ 104`
and answered with "Error 404", and the next station query is sent with the
radius infinity, which is not twice that radius. -/
theorem doubling_saturates_after_not_found :
    (∀ trace query, not_found_env.request trace query = .ok not_found) ∧
    (run not_found_env 132 example_start).2 = .searching ∧
    (station_radii (run not_found_env 133 example_start).1.trace)[131]? =
      some (.finite 13421773 104) ∧
    (station_radii (run not_found_env 133 example_start).1.trace)[132]? =
      some .infinity ∧
    ¬ ∃ q, (Binary32.finite 13421773 104).toRat = some q ∧
      Binary32.infinity.toRat = some (2 * q) := by
  have hs := run_not_found_env 132 example_start
  have hr := run_succ_station_radii not_found_env example_start rfl 132 hs
  have h0 : station_radii example_start.trace = [] := rfl
  have hrad : example_start.radius = initial_radius := rfl
  refine ⟨fun _ _ => rfl, hs, ?_, ?_, ?_⟩
  · rw [hr, h0, List.nil_append, List.getElem?_map, List.getElem?_range (by norm_num),
      hrad, Option.map_some', double_iterate_initial, if_pos (by norm_num)]
    rfl
  · rw [hr, h0, List.nil_append, List.getElem?_map, List.getElem?_range (by norm_num),
      hrad, Option.map_some', double_iterate_initial, if_neg (by norm_num)]
  · rintro ⟨q, _, h2⟩
    simp [Binary32.toRat] at h2

/-! ## `parse`: the lines that are dropped -/

theorem pieces_of_not_mem (d : Char) (s : Str) (h : d ∉ s) : pieces s d = [s] := by
  induction s with
  | nil => rfl
  | cons c cs ih =>
    have hc : c ≠ d := fun he => h (by simp [he])
    have hcs : d ∉ cs := fun hm => h (List.mem_cons_of_mem _ hm)
    simp [pieces, hc, ih hcs]

theorem pieces_append_cons (d : Char) (t : Str) :
    ∀ s : Str, pieces (s ++ d :: t) d = pieces s d ++ pieces t d := by
  intro s
  induction s with
  | nil => simp [pieces]
  | cons c cs ih =>
    obtain ⟨p, ps, hps⟩ := pieces_eq_cons cs d
    by_cases hc : c = d
    · simp [pieces, hc, ih]
    · simp [pieces, hc, ih, hps]

/-- The lines `parse` keeps of a body that ends in a line feed followed by a
text without line feed: the lines of what comes before the line feed, but the
first one. -/
theorem kept_lines_append (body text : Str) (h : '\n' ∉ text) :
    (split (body ++ '\n' :: text) '\n').tail ≠ [] ∧
    (split (body ++ '\n' :: text) '\n').tail.dropLast = (split body '\n').tail := by
  obtain ⟨p, ps, hps⟩ := pieces_eq_cons body '\n'
  rw [split_eq_pieces, split_eq_pieces, pieces_append_cons, pieces_of_not_mem _ _ h, hps]
  simp

theorem parse_append (body text : Str) (separator : Char) (count : Nat) (h : '\n' ∉ text) :
    parse (body ++ '\n' :: text) separator count =
      parse_lines separator count (split body '\n').tail := by
  obtain ⟨h1, h2⟩ := kept_lines_append body text h
  unfold parse
  cases ht : (split (body ++ '\n' :: text) '\n').tail with
  | nil => exact absurd ht h1
  | cons line lines =>
    rw [ht] at h2
    simp only [h2]

/-- C18: the last line is dropped whatever it holds: for a body that ends in a
line feed, `parse` gives the same result when any text without line feed is
appended to it, so what follows the last line feed of a body is neither
returned as a row nor checked for its number of fields. -/
theorem last_line_unchecked (body text : Str) (separator : Char) (count : Nat)
    (h : '\n' ∉ text) :
    parse (body ++ ['\n'] ++ text) separator count = parse (body ++ ['\n']) separator count := by
  have h1 := parse_append body text separator count h
  have h2 := parse_append body [] separator count (by simp)
  simp only [List.append_assoc, List.singleton_append]
  rw [h1, h2]

theorem last_line_unchecked_witness :
    parse ("h\nA|B\n".toList ++ ['\n'] ++ "x|y|z".toList) '|' 2 =
      parse ("h\nA|B\n".toList ++ ['\n']) '|' 2 ∧
    parse ("h\nA|B\n".toList ++ ['\n'] ++ "x|y|z".toList) '|' 2 =
      .error parse_error ∧
    parse ("h\nA|B".toList ++ ['\n'] ++ "x|y|z".toList) '|' 2 =
      .ok [["A".toList, "B".toList]] :=
  ⟨last_line_unchecked "h\nA|B\n".toList "x|y|z".toList '|' 2 (by decide), by decide, by decide⟩

/-- C17: `split` never returns an empty vector, so the removal of the first
line always acts on a line; for a body with at least one line feed the removal
of the last line acts on a line too, and `parse` returns rows, one less than
there are line feeds in the body, or throws the parse error; for a body
without line feed, and for no other, the removal of the last line acts on an
empty vector and the behaviour is undefined. -/
theorem parse_defined_iff_newline (response : Str) (separator : Char) (count : Nat) :
    split response '\n' ≠ [] ∧
    ('\n' ∈ response ↔ (split response '\n').tail ≠ []) ∧
    ('\n' ∈ response →
      (∃ rows, parse response separator count = .ok rows ∧
        rows.length = response.count '\n' - 1) ∨
      parse response separator count = .error parse_error) ∧
    (parse response separator count = .undefined ↔ '\n' ∉ response) := by
  have hlen := split_length response '\n'
  have htail : (split response '\n').tail.length = response.count '\n' := by
    rw [List.length_tail, hlen]; rfl
  have hdef : '\n' ∈ response →
      (∃ rows, parse response separator count = .ok rows ∧
        rows.length = response.count '\n' - 1) ∨
      parse response separator count = .error parse_error := by
    intro h
    rw [parse_of_newline response separator count h]
    by_cases hall : ∀ line ∈ (split response '\n').tail.dropLast,
        (split line separator).length = count
    · left
      refine ⟨_, parse_lines_ok _ _ _ hall, ?_⟩
      rw [List.length_map, List.length_dropLast, htail]
    · right
      exact parse_lines_error _ _ _ (by simpa using hall)
  refine ⟨split_ne_nil _ _, ?_, hdef, ?_⟩
  · rw [← List.length_pos, htail]
    exact List.count_pos_iff.symm
  · constructor
    · intro hu hm
      rcases hdef hm with ⟨rows, h1, _⟩ | h1
      · rw [h1] at hu; cases hu
      · rw [h1] at hu; cases hu
    · exact parse_without_newline response separator count

theorem parse_defined_iff_newline_witness :
    (∃ rows, parse afi_anmo_table '|' default_count = .ok rows ∧
      rows.length = afi_anmo_table.count '\n' - 1) ∧
    afi_anmo_table.count '\n' = 3 ∧
    parse "no line feed".toList '|' default_count = .undefined :=
  ⟨((parse_defined_iff_newline afi_anmo_table '|' default_count).2.2.1 (by decide)).resolve_right
      (by decide),
    by decide,
    (parse_defined_iff_newline "no line feed".toList '|' default_count).2.2.2.2 (by decide)⟩

/-! ## `find_available_stations`: the value returned and the growth of the map -/

/-- C11: when the request of `find_available_stations` is answered with a
body, the call returns true if the body has no "Error 404" and parses as a
table of `default_count` fields a row, whatever the rows and the map are, also
when the table has no row or no row has a new key; and it returns false exactly
when the body contains "Error 404". -/
theorem found_unless_not_found (env : Env) (s : State) (body : Str)
    (hbody : env.request s.trace (Query.stations s.radius s.start_date) = .ok body) :
    (∀ rows, ¬ not_found <:+: body → parse body '|' default_count = .ok rows →
      find_available_stations env s =
        ({ s with
            trace := s.trace ++ [Event.request (Query.stations s.radius s.start_date)],
            stations := add_stations rows s.stations },
          .ok true)) ∧
    ((find_available_stations env s).2 = .ok false ↔ not_found <:+: body) := by
  rcases find_available_stations_cases env s with ⟨m, hr, _⟩ | ⟨r, hr, h404, hf⟩ |
    ⟨r, res, hr, h404, hp, hne, hf, hb⟩ | ⟨r, rows, hr, h404, hp, hf⟩
  · rw [hbody] at hr; cases hr
  · rw [hbody] at hr; cases hr
    have hin : not_found <:+: body := (contains_iff_occurs _ _).1 h404
    exact ⟨fun rows hn _ => absurd hin hn, by rw [hf]; simp [hin]⟩
  · rw [hbody] at hr; cases hr
    have hin : ¬ not_found <:+: body := by
      rw [← contains_iff_occurs, h404]; simp
    refine ⟨fun rows _ hrows => absurd (hp.symm.trans hrows) (hne rows), ?_⟩
    constructor
    · intro h; exact absurd h (hb false)
    · intro h; exact absurd h hin
  · rw [hbody] at hr; cases hr
    have hin : ¬ not_found <:+: body := by
      rw [← contains_iff_occurs, h404]; simp
    refine ⟨fun rows' _ hrows => ?_, ?_⟩
    · rw [hp] at hrows; cases hrows; exact hf
    · rw [hf]; simp [hin]

theorem found_unless_not_found_witness :
    (find_available_stations afi_anmo_env known_state).2 = .ok true ∧
    (find_available_stations afi_anmo_env known_state).1.stations = known_state.stations ∧
    (find_available_stations header_only_env known_state).2 = .ok true ∧
    (find_available_stations not_found_env known_state).2 = .ok false :=
  ⟨congrArg Prod.snd ((found_unless_not_found afi_anmo_env known_state afi_anmo_table rfl).1
      [["IU".toList, "AFI".toList, "1.0".toList, "2.0".toList, "e".toList, "n".toList,
          "s".toList, "t".toList],
        ["IU".toList, "ANMO".toList, "34.9".toList, "-106.4".toList, "e".toList, "n".toList,
          "s".toList, "t".toList]]
      (by rw [← contains_iff_occurs]; decide) (by decide)),
    by decide,
    congrArg Prod.snd ((found_unless_not_found header_only_env known_state "#h\n".toList rfl).1
      [] (by rw [← contains_iff_occurs]; decide) (by decide)),
    (found_unless_not_found not_found_env known_state not_found rfl).2.2 (List.infix_refl _)⟩

/-! ## The map only grows -/

theorem grows_refl (stations : Registry) : Grows stations stations :=
  ⟨Nat.le_refl _, fun _ h => h, fun _ station h => ⟨station, h, fun hi => hi⟩⟩

theorem grows_trans (a b c : Registry) (hab : Grows a b) (hbc : Grows b c) : Grows a c := by
  obtain ⟨l1, k1, f1⟩ := hab
  obtain ⟨l2, k2, f2⟩ := hbc
  refine ⟨Nat.le_trans l1 l2, fun key h => k2 key (k1 key h), fun key station h => ?_⟩
  obtain ⟨s1, h1, i1⟩ := f1 key station h
  obtain ⟨s2, h2, i2⟩ := f2 key s1 h1
  exact ⟨s2, h2, fun hi => i2 (i1 hi)⟩

theorem add_stations_length_keys :
    ∀ (rows : List (List Str)) (stations : Registry),
      stations.length ≤ (add_stations rows stations).length ∧
      ∀ key ∈ stations.keys, key ∈ (add_stations rows stations).keys := by
  intro rows
  induction rows with
  | nil => intro stations; exact ⟨Nat.le_refl _, fun _ h => h⟩
  | cons row rest ih =>
    intro stations
    simp only [add_stations]
    by_cases hnew : (Registry.find (field row 0 ++ field row 1) stations).isNone = true
    · rw [if_pos hnew]
      have hperm := emplace_perm (field row 0 ++ field row 1)
        ⟨field row 0, field row 1, field row 2, field row 3, false⟩ stations
        (by simpa using hnew)
      obtain ⟨h1, h2⟩ := ih (Registry.emplace (field row 0 ++ field row 1)
        ⟨field row 0, field row 1, field row 2, field row 3, false⟩ stations)
      constructor
      · have := hperm.length_eq
        simp only [List.length_cons] at this
        omega
      · intro key hk
        apply h2
        have hkp := hperm.map Prod.fst
        simp only [Registry.keys] at hk ⊢
        rw [hkp.mem_iff]
        exact List.mem_cons_of_mem _ hk
    · rw [if_neg hnew]
      exact ih stations

theorem add_stations_grows (rows : List (List Str)) (stations : Registry) :
    Grows stations (add_stations rows stations) :=
  ⟨(add_stations_length_keys rows stations).1, (add_stations_length_keys rows stations).2,
    fun key station h => ⟨station, add_stations_find key station rows stations h, fun hi => hi⟩⟩

theorem find_available_stations_grows (env : Env) (s : State) :
    Grows s.stations (find_available_stations env s).1.stations := by
  rcases find_available_stations_cases env s with ⟨m, _, hf⟩ | ⟨r, _, _, hf⟩ |
    ⟨r, res, _, _, _, _, hf, _⟩ | ⟨r, rows, _, _, _, hf⟩
  · rw [hf]; exact grows_refl _
  · rw [hf]; exact grows_refl _
  · rw [hf]; exact grows_refl _
  · rw [hf]; exact add_stations_grows rows s.stations

/-- The loop of `find_usable_channel` keeps the keys of the map, in their order,
and the station of every key, but for its `invalid` flag, which it may set. -/
theorem scan_stations_keeps (env : Env) (start_date : Str) :
    ∀ (todo : Registry) (trace : List Event),
      (scan_stations env start_date todo trace).stations.keys = todo.keys ∧
      ∀ key station, todo.find key = some station →
        (scan_stations env start_date todo trace).stations.find key = some station ∨
        (scan_stations env start_date todo trace).stations.find key =
          some { station with invalid := true } := by
  intro todo
  induction todo with
  | nil => intro trace; simp [scan_stations, Registry.find]
  | cons entry rest ih =>
    intro trace
    obtain ⟨k, st⟩ := entry
    by_cases hinv : st.invalid = true
    · rw [scan_stations_invalid _ _ _ _ _ _ hinv]
      obtain ⟨h1, h2⟩ := ih trace
      constructor
      · simp only [Registry.keys, List.map_cons] at h1 ⊢
        rw [h1]
      · intro key station hf
        simp only [Registry.find] at hf ⊢
        by_cases hk : key = k
        · rw [if_pos hk] at hf ⊢
          exact Or.inl hf
        · rw [if_neg hk] at hf ⊢
          exact h2 key station hf
    · have hinv2 : st.invalid = false := by simpa using hinv
      by_cases hc : check_channels env start_date st trace = .ok none
      · rw [scan_stations_next _ _ _ _ _ _ hinv2 hc]
        obtain ⟨h1, h2⟩ := ih (trace ++
          [Event.request (Query.availability st.network st.station start_date)])
        constructor
        · simp only [Registry.keys, List.map_cons] at h1 ⊢
          rw [h1]
        · intro key station hf
          simp only [Registry.find] at hf ⊢
          by_cases hk : key = k
          · rw [if_pos hk] at hf ⊢
            cases hf
            exact Or.inr rfl
          · rw [if_neg hk] at hf ⊢
            exact h2 key station hf
      · rw [scan_stations_leave _ _ _ _ _ _ hinv2 hc]
        exact ⟨rfl, fun key station hf => Or.inl hf⟩

theorem find_usable_channel_grows (env : Env) (s : State) :
    Grows s.stations (find_usable_channel env s).1.stations := by
  rw [(find_usable_channel_scan env s).1]
  obtain ⟨h1, h2⟩ := scan_stations_keeps env s.start_date s.stations s.trace
  refine ⟨?_, ?_, ?_⟩
  · have := congrArg List.length h1
    simp only [Registry.keys, List.length_map] at this
    omega
  · intro key hk; rw [h1]; exact hk
  · intro key station hf
    rcases h2 key station hf with h | h
    · exact ⟨station, h, fun hi => hi⟩
    · exact ⟨_, h, fun _ => rfl⟩

theorem save_wav_stations (env : Env) (s : State) : (save_wav env s).1.stations = s.stations := by
  rcases save_wav_cases env s with ⟨m, _, h⟩ | ⟨r, _, _, h⟩ | ⟨r, _, _, h⟩ | ⟨r, _, _, h⟩ <;>
    rw [h]

theorem attempt_grows (env : Env) (s : State) : Grows s.stations (attempt env s).1.stations := by
  have h1 := find_available_stations_grows env s
  unfold attempt
  cases hf : find_available_stations env s with
  | mk s1 out =>
    rw [hf] at h1
    cases out with
    | error message => exact h1
    | undefined => exact h1
    | ok b =>
      cases b with
      | false => exact h1
      | true =>
        have h2 := grows_trans _ _ _ h1 (find_usable_channel_grows env s1)
        simp only []
        cases hu : find_usable_channel env s1 with
        | mk s2 out2 =>
          rw [hu] at h2
          cases out2 with
          | error message => exact h2
          | undefined => exact h2
          | ok b2 =>
            cases b2 with
            | false => exact h2
            | true =>
              have h3 := save_wav_stations env s2
              simp only []
              cases hw : save_wav env s2 with
              | mk s3 out3 =>
                rw [hw] at h3
                simp only at h3
                cases out3 <;> (simp only []; rw [h3]; exact h2)

theorem iteration_grows (env : Env) (s : State) :
    Grows s.stations (iteration env s).1.stations := by
  rw [iteration_eq_attempt]
  exact attempt_grows env
    { s with radius := if s.first_attempt then s.radius else s.radius.double }

theorem run_grows (env : Env) :
    ∀ (n : Nat) (s : State), Grows s.stations (run env n s).1.stations := by
  intro n
  induction n with
  | zero => intro s; exact grows_refl _
  | succ n ih =>
    intro s
    have h1 := iteration_grows env s
    rw [run]
    cases hit : iteration env s with
    | mk s1 status =>
      rw [hit] at h1
      cases status with
      | searching => exact grows_trans _ _ _ h1 (ih s1)
      | saved => exact h1
      | failed message => exact h1
      | undefined => exact h1

/-- C12: the map only grows. Each call of `find_available_stations` and each
call of `find_usable_channel`, from any state, leaves a map that is not
smaller, has every key it had, and has every station that was marked invalid
still marked invalid; and so does any number `j` of further iterations of the
loop after the first `n` of a run. -/
theorem registry_only_grows (env : Env) (s : State) (start_date start_time : Str)
    (duration : Int) (n j : Nat) :
    Grows s.stations (find_available_stations env s).1.stations ∧
    Grows s.stations (find_usable_channel env s).1.stations ∧
    Grows (run env n (initial_state start_date start_time duration)).1.stations
      (run env (n + j) (initial_state start_date start_time duration)).1.stations := by
  refine ⟨find_available_stations_grows env s, find_usable_channel_grows env s, ?_⟩
  rw [run_add]
  by_cases hs : (run env n (initial_state start_date start_time duration)).2 = .searching
  · rw [if_pos hs]; exact run_grows env j _
  · rw [if_neg hs]; exact grows_refl _

theorem registry_only_grows_witness :
    Registry.keys (run no_channels_env 1 example_start).1.stations =
      ["IUAFI".toList, "IUANMO".toList] ∧
    Grows (run no_channels_env 1 example_start).1.stations
      (run no_channels_env (1 + 1) example_start).1.stations :=
  ⟨by decide,
    (registry_only_grows no_channels_env example_start "2017-03-01".toList "12:00:00".toList
      1800 1 1).2.2⟩

/-! ## `find_usable_channel`: what the call leaves behind -/

theorem mark_of_invalid (key : Str) (station : Station) (h : station.invalid = true) :
    mark (key, station) = (key, station) := by
  rcases station with ⟨_, _, _, _, invalid⟩
  simp only at h
  subst h
  rfl

theorem probes_cons_invalid (start_date key : Str) (station : Station) (rest : Registry)
    (h : station.invalid = true) :
    probes start_date ((key, station) :: rest) = probes start_date rest := by
  simp [probes, List.filter_cons, h]

theorem probes_cons_valid (start_date key : Str) (station : Station) (rest : Registry)
    (h : station.invalid = false) :
    probes start_date ((key, station) :: rest) =
      Event.request (Query.availability station.network station.station start_date) ::
        probes start_date rest := by
  simp [probes, List.filter_cons, h]

/-- How the loop of `find_usable_channel` is left. Either it ran to the end:
every entry is marked invalid and every station that was not has been queried,
in the order of the map. Or it was left at an entry that is not marked
invalid, by `return true` or by an exception: the entries before it are marked
invalid, this entry and the ones after it are as they were, and the queries
sent are the ones for the entries before it that were not marked invalid, and
the one for this entry. -/
theorem scan_stations_shape (env : Env) (start_date : Str) :
    ∀ (todo : Registry) (trace : List Event),
      ((scan_stations env start_date todo trace).result = .ok none ∧
        (scan_stations env start_date todo trace).stations = todo.map mark ∧
        (scan_stations env start_date todo trace).trace = trace ++ probes start_date todo) ∨
      (∃ earlier key station later,
        todo = earlier ++ (key, station) :: later ∧ station.invalid = false ∧
        check_channels env start_date station (trace ++ probes start_date earlier) ≠ .ok none ∧
        (scan_stations env start_date todo trace).stations =
          earlier.map mark ++ (key, station) :: later ∧
        (scan_stations env start_date todo trace).trace =
          trace ++ probes start_date earlier ++
            [Event.request (Query.availability station.network station.station start_date)] ∧
        (scan_stations env start_date todo trace).result =
          match check_channels env start_date station (trace ++ probes start_date earlier) with
          | .ok (some channel) => .ok (some (station, channel))
          | .ok none => .ok none
          | .error message => .error message
          | .undefined => .undefined) := by
  intro todo
  induction todo with
  | nil => intro trace; left; simp [scan_stations, probes]
  | cons entry rest ih =>
    intro trace
    obtain ⟨k, st⟩ := entry
    by_cases hinv : st.invalid = true
    · rw [scan_stations_invalid _ _ _ _ _ _ hinv]
      rcases ih trace with ⟨h1, h2, h3⟩ | ⟨earlier, key, station, later, h1, h2, h3, h4, h5, h6⟩
      · left
        refine ⟨h1, ?_, ?_⟩
        · simp only [List.map_cons, mark_of_invalid k st hinv, h2]
        · simp only [probes_cons_invalid _ _ _ _ hinv, h3]
      · right
        refine ⟨(k, st) :: earlier, key, station, later, ?_, h2, ?_, ?_, ?_, ?_⟩
        · rw [h1]; rfl
        · rw [probes_cons_invalid _ _ _ _ hinv]; exact h3
        · simp only [List.map_cons, mark_of_invalid k st hinv, h4, List.cons_append]
        · simp only [probes_cons_invalid _ _ _ _ hinv, h5]
        · simp only [probes_cons_invalid _ _ _ _ hinv, h6]
    · have hinv2 : st.invalid = false := by simpa using hinv
      by_cases hc : check_channels env start_date st trace = .ok none
      · rw [scan_stations_next _ _ _ _ _ _ hinv2 hc]
        rcases ih (trace ++ [Event.request (Query.availability st.network st.station
            start_date)]) with
          ⟨h1, h2, h3⟩ | ⟨earlier, key, station, later, h1, h2, h3, h4, h5, h6⟩
        · left
          refine ⟨h1, ?_, ?_⟩
          · simp only [List.map_cons, h2]; rfl
          · rw [h3, probes_cons_valid _ _ _ _ hinv2]
            simp [List.append_assoc]
        · right
          refine ⟨(k, st) :: earlier, key, station, later, ?_, h2, ?_, ?_, ?_, ?_⟩
          · rw [h1]; rfl
          · rw [probes_cons_valid _ _ _ _ hinv2]
            simpa [List.append_assoc] using h3
          · simp only [List.map_cons, h4, List.cons_append]; rfl
          · rw [h5, probes_cons_valid _ _ _ _ hinv2]
            simp [List.append_assoc]
          · rw [probes_cons_valid _ _ _ _ hinv2]
            simpa [List.append_assoc] using h6
      · right
        refine ⟨[], k, st, rest, rfl, hinv2, ?_, ?_, ?_, ?_⟩
        · simpa [probes] using hc
        · rw [scan_stations_leave _ _ _ _ _ _ hinv2 hc]; rfl
        · rw [scan_stations_leave _ _ _ _ _ _ hinv2 hc]; simp [probes]
        · rw [scan_stations_leave _ _ _ _ _ _ hinv2 hc]; simp [probes]

/-- What a usable channel found by the loop body comes from. -/
theorem check_channels_some (env : Env) (start_date : Str) (station : Station)
    (trace : List Event) (channel : Channel)
    (h : check_channels env start_date station trace = .ok (some channel)) :
    ∃ body rows,
      env.request trace (Query.availability station.network station.station start_date) =
        .ok body ∧
      ¬ not_found <:+: body ∧ parse body ' ' default_count = .ok rows ∧
      first_usable rows = some channel := by
  unfold check_channels at h
  cases hreq : env.request trace
      (Query.availability station.network station.station start_date) with
  | error message => simp [hreq] at h
  | ok body =>
    simp only [hreq] at h
    by_cases h404 : contains body not_found = true
    · simp [h404] at h
    · simp only [h404] at h
      cases hp : parse body ' ' default_count with
      | error message => simp [hp] at h
      | undefined => simp [hp] at h
      | ok rows =>
        simp only [hp] at h
        refine ⟨body, rows, rfl, ?_, hp, ?_⟩
        · rw [← contains_iff_occurs]; exact h404
        · simpa using h

theorem first_usable_some (rows : List (List Str)) (channel : Channel)
    (h : first_usable rows = some channel) :
    channel.channel ∈ valid_channel_types ∧
    ∃ row ∈ rows, channel = ⟨field row 3, field row 2⟩ := by
  induction rows with
  | nil => simp [first_usable] at h
  | cons row rest ih =>
    simp only [first_usable] at h
    by_cases hs : is_supported (field row 3) valid_channel_types = true
    · rw [if_pos hs] at h
      cases h
      exact ⟨(is_supported_iff_mem _ _).1 hs, row, List.mem_cons_self _ _, rfl⟩
    · rw [if_neg hs] at h
      obtain ⟨h1, r, hr, h2⟩ := ih h
      exact ⟨h1, r, List.mem_cons_of_mem _ hr, h2⟩

/-- What `find_usable_channel` leaves behind when it returns: after `false`,
every entry is marked invalid; after `true`, the loop was left at the entry of
the selected station, which is not marked invalid, with the selected channel
found in the answer to its query. -/
theorem find_usable_channel_returns (env : Env) (s : State) :
    ((find_usable_channel env s).2 = .ok false →
      (find_usable_channel env s).1.stations = s.stations.map mark ∧
      (find_usable_channel env s).1.trace = s.trace ++ probes s.start_date s.stations) ∧
    ((find_usable_channel env s).2 = .ok true →
      ∃ earlier key later,
        s.stations = earlier ++ (key, (find_usable_channel env s).1.selected_station) :: later ∧
        (find_usable_channel env s).1.selected_station.invalid = false ∧
        check_channels env s.start_date (find_usable_channel env s).1.selected_station
          (s.trace ++ probes s.start_date earlier) =
            .ok (some (find_usable_channel env s).1.selected_channel) ∧
        (find_usable_channel env s).1.stations =
          earlier.map mark ++ (key, (find_usable_channel env s).1.selected_station) :: later ∧
        (find_usable_channel env s).1.trace =
          s.trace ++ probes s.start_date earlier ++
            [Event.request (Query.availability
              (find_usable_channel env s).1.selected_station.network
              (find_usable_channel env s).1.selected_station.station s.start_date)]) := by
  have hshape := scan_stations_shape env s.start_date s.stations s.trace
  unfold find_usable_channel
  rcases hshape with ⟨h1, h2, h3⟩ | ⟨earlier, key, station, later, h1, h2, h3, h4, h5, h6⟩
  · simp only [h1]
    exact ⟨fun _ => ⟨h2, h3⟩, fun h => by simp at h⟩
  · cases hc : check_channels env s.start_date station
        (s.trace ++ probes s.start_date earlier) with
    | ok found =>
      cases found with
      | none => exact absurd hc h3
      | some channel =>
        rw [hc] at h6
        simp only [h6]
        refine ⟨fun h => by simp at h, fun _ => ?_⟩
        exact ⟨earlier, key, later, h1, h2, hc, h4, h5⟩
    | error message =>
      rw [hc] at h6
      simp only [h6]
      exact ⟨fun h => by simp at h, fun h => by simp at h⟩
    | undefined =>
      rw [hc] at h6
      simp only [h6]
      exact ⟨fun h => by simp at h, fun h => by simp at h⟩

theorem mem_probes (start_date : Str) (entries : Registry) (event : Event)
    (h : event ∈ probes start_date entries) :
    ∃ entry ∈ entries, entry.2.invalid = false ∧
      event = Event.request (Query.availability entry.2.network entry.2.station start_date) := by
  simp only [probes, List.mem_map, List.mem_filter] at h
  obtain ⟨entry, ⟨hm, hv⟩, he⟩ := h
  exact ⟨entry, hm, by simpa using hv, he.symm⟩

theorem keys_map_mark (entries : Registry) :
    Registry.keys (entries.map mark) = Registry.keys entries := by
  simp [Registry.keys, mark, Function.comp_def]

theorem find_append_of_not_mem (key : Str) (later : Registry) :
    ∀ earlier : Registry, key ∉ earlier.keys →
      Registry.find key (earlier ++ later) = Registry.find key later := by
  intro earlier
  induction earlier with
  | nil => intro _; rfl
  | cons entry rest ih =>
    obtain ⟨k, st⟩ := entry
    intro h
    have hk : key ≠ k := fun he => h (by simp [Registry.keys, he])
    have hrest : key ∉ Registry.keys rest :=
      fun hm => h (by
        simp only [Registry.keys, List.map_cons] at hm ⊢
        exact List.mem_cons_of_mem _ hm)
    simp only [List.cons_append, Registry.find, if_neg hk]
    exact ih hrest

/-- The stations of the probes of some entries are marked invalid once the
entries are marked. -/
theorem probed_marked (start_date : Str) (entries : Registry)
    (network station date : Str)
    (h : Event.request (Query.availability network station date) ∈
      probes start_date entries) :
    ∃ key entry, (key, entry) ∈ entries.map mark ∧
      entry.network = network ∧ entry.station = station ∧ entry.invalid = true := by
  obtain ⟨e, he, _, heq⟩ := mem_probes _ _ _ h
  simp only [Event.request.injEq, Query.availability.injEq] at heq
  exact ⟨e.1, { e.2 with invalid := true }, List.mem_map.2 ⟨e, he, rfl⟩,
    heq.1.symm, heq.2.1.symm, rfl⟩

/-- C14, amended: when a call of `find_usable_channel` returns false, the
requests of the call are the availability queries for the stations that were
not marked invalid, and every entry of the map is marked invalid, so every
station queried is. When the call returns true, the map had the entry of the
selected station, not marked invalid, after some `earlier` entries: the
requests of the call are the availability queries for the stations of
`earlier` that were not marked invalid, followed by the one for the selected
station; the entries of `earlier` are marked invalid, so every station queried
before the selected one is; and the entry of the selected station and the
entries after it are left as they were: the station a usable channel was found
on is not marked invalid, and the map returns it, unmarked, for its key. -/
theorem queried_stations_marked (env : Env) (s : State) :
    ((find_usable_channel env s).2 = .ok false →
      (find_usable_channel env s).1.trace.drop s.trace.length =
        probes s.start_date s.stations ∧
      (find_usable_channel env s).1.stations = s.stations.map mark ∧
      ∀ network station date,
        Event.request (Query.availability network station date) ∈
          (find_usable_channel env s).1.trace.drop s.trace.length →
        ∃ key entry, (key, entry) ∈ (find_usable_channel env s).1.stations ∧
          entry.network = network ∧ entry.station = station ∧ entry.invalid = true) ∧
    ((find_usable_channel env s).2 = .ok true →
      (find_usable_channel env s).1.selected_station.invalid = false ∧
      ∃ earlier key later,
        s.stations =
          earlier ++ (key, (find_usable_channel env s).1.selected_station) :: later ∧
        (find_usable_channel env s).1.stations =
          earlier.map mark ++ (key, (find_usable_channel env s).1.selected_station) :: later ∧
        (find_usable_channel env s).1.trace.drop s.trace.length =
          probes s.start_date earlier ++
            [Event.request (Query.availability
              (find_usable_channel env s).1.selected_station.network
              (find_usable_channel env s).1.selected_station.station s.start_date)] ∧
        (∀ network station date,
          Event.request (Query.availability network station date) ∈
            probes s.start_date earlier →
          ∃ k entry, (k, entry) ∈ earlier.map mark ∧
            entry.network = network ∧ entry.station = station ∧ entry.invalid = true) ∧
        (key ∉ earlier.keys →
          Registry.find key (find_usable_channel env s).1.stations =
            some (find_usable_channel env s).1.selected_station)) := by
  obtain ⟨hfalse, htrue⟩ := find_usable_channel_returns env s
  constructor
  · intro hret
    obtain ⟨h1, h2⟩ := hfalse hret
    have hdrop : (find_usable_channel env s).1.trace.drop s.trace.length =
        probes s.start_date s.stations := by
      rw [h2, List.drop_left]
    refine ⟨hdrop, h1, fun network station date hq => ?_⟩
    rw [hdrop] at hq
    rw [h1]
    exact probed_marked _ _ _ _ _ hq
  · intro hret
    obtain ⟨earlier, key, later, h1, h2, _, h4, h5⟩ := htrue hret
    refine ⟨h2, earlier, key, later, h1, h4, ?_, ?_, ?_⟩
    · rw [h5, List.append_assoc, List.drop_left]
    · exact fun network station date hq => probed_marked _ _ _ _ _ hq
    · intro hkey
      rw [h4, find_append_of_not_mem _ _ _ (by rw [keys_map_mark]; exact hkey)]
      simp [Registry.find]

theorem queried_stations_marked_witness :
    ((find_usable_channel no_channels_env known_state).1.trace.drop known_state.trace.length =
        probes known_state.start_date known_state.stations ∧
      (find_usable_channel no_channels_env known_state).1.stations =
        known_state.stations.map mark) ∧
    ((find_usable_channel lhz_bhz_env lhz_bhz_state).1.selected_station.invalid = false ∧
      ∃ earlier key later,
        lhz_bhz_state.stations =
          earlier ++
            (key, (find_usable_channel lhz_bhz_env lhz_bhz_state).1.selected_station) :: later ∧
        (find_usable_channel lhz_bhz_env lhz_bhz_state).1.stations =
          earlier.map mark ++
            (key, (find_usable_channel lhz_bhz_env lhz_bhz_state).1.selected_station) :: later ∧
        (find_usable_channel lhz_bhz_env lhz_bhz_state).1.trace.drop
            lhz_bhz_state.trace.length =
          probes lhz_bhz_state.start_date earlier ++
            [Event.request (Query.availability
              (find_usable_channel lhz_bhz_env lhz_bhz_state).1.selected_station.network
              (find_usable_channel lhz_bhz_env lhz_bhz_state).1.selected_station.station
              lhz_bhz_state.start_date)] ∧
        (∀ network station date,
          Event.request (Query.availability network station date) ∈
            probes lhz_bhz_state.start_date earlier →
          ∃ k entry, (k, entry) ∈ earlier.map mark ∧
            entry.network = network ∧ entry.station = station ∧ entry.invalid = true) ∧
        (key ∉ earlier.keys →
          Registry.find key (find_usable_channel lhz_bhz_env lhz_bhz_state).1.stations =
            some (find_usable_channel lhz_bhz_env lhz_bhz_state).1.selected_station)) ∧
    (find_usable_channel lhz_bhz_env lhz_bhz_state).1.selected_station = anmo ∧
    Registry.find "IUANMO".toList (find_usable_channel lhz_bhz_env lhz_bhz_state).1.stations =
      some anmo :=
  ⟨⟨((queried_stations_marked no_channels_env known_state).1 (by decide)).1,
      ((queried_stations_marked no_channels_env known_state).1 (by decide)).2.1⟩,
    (queried_stations_marked lhz_bhz_env lhz_bhz_state).2 (by decide),
    by decide, by decide⟩

/-- C14 fails as stated: with the map holding `afi`, marked invalid, and `anmo`,
and the table `lhz_bhz_table` as the answer, `find_usable_channel` queries
the station `anmo` and returns true, and the entry of `anmo` is not marked
invalid when it returns. -/
theorem found_station_not_marked :
    (find_usable_channel lhz_bhz_env lhz_bhz_state).2 = .ok true ∧
    Event.request (Query.availability "IU".toList "ANMO".toList "2017-03-01".toList) ∈
      (find_usable_channel lhz_bhz_env lhz_bhz_state).1.trace.drop
        lhz_bhz_state.trace.length ∧
    (find_usable_channel lhz_bhz_env lhz_bhz_state).1.stations =
      [("IUAFI".toList, afi), ("IUANMO".toList, anmo)] ∧
    anmo.invalid = false := by
  decide

/-- C15: when `find_usable_channel` returns false, every station of the map is
marked invalid; when it returns true, the selected station is the station of
an entry of the map and is not marked invalid, the last request sent is the
availability query for it, answered with a body without "Error 404", and the
code of the selected channel is a member of `valid_channel_types`. -/
theorem find_usable_channel_postcondition (env : Env) (s : State) :
    ((find_usable_channel env s).2 = .ok false →
      ∀ entry ∈ (find_usable_channel env s).1.stations, entry.2.invalid = true) ∧
    ((find_usable_channel env s).2 = .ok true →
      (∃ key, (key, (find_usable_channel env s).1.selected_station) ∈
        (find_usable_channel env s).1.stations) ∧
      (find_usable_channel env s).1.selected_station.invalid = false ∧
      (∃ sent body, s.trace <+: sent ∧
        (find_usable_channel env s).1.trace = sent ++ [Event.request (Query.availability
          (find_usable_channel env s).1.selected_station.network
          (find_usable_channel env s).1.selected_station.station s.start_date)] ∧
        env.request sent (Query.availability
          (find_usable_channel env s).1.selected_station.network
          (find_usable_channel env s).1.selected_station.station s.start_date) = .ok body ∧
        ¬ not_found <:+: body) ∧
      (find_usable_channel env s).1.selected_channel.channel ∈ valid_channel_types) := by
  obtain ⟨hfalse, htrue⟩ := find_usable_channel_returns env s
  constructor
  · intro h entry he
    rw [(hfalse h).1] at he
    obtain ⟨e, _, rfl⟩ := List.mem_map.1 he
    rfl
  · intro h
    obtain ⟨earlier, key, later, h1, h2, h3, h4, h5⟩ := htrue h
    obtain ⟨body, rows, hb, hn, _, hf⟩ := check_channels_some _ _ _ _ _ h3
    exact ⟨⟨key, by rw [h4]; simp⟩, h2,
      ⟨s.trace ++ probes s.start_date earlier, body, List.prefix_append _ _, h5, hb, hn⟩,
      (first_usable_some rows _ hf).1⟩

theorem find_usable_channel_postcondition_witness :
    (∀ entry ∈ (find_usable_channel no_channels_env known_state).1.stations,
      entry.2.invalid = true) ∧
    (find_usable_channel lhz_bhz_env lhz_bhz_state).1.selected_station = anmo ∧
    (find_usable_channel lhz_bhz_env lhz_bhz_state).1.selected_channel.channel ∈
      valid_channel_types :=
  ⟨(find_usable_channel_postcondition no_channels_env known_state).1 (by decide),
    by decide,
    ((find_usable_channel_postcondition lhz_bhz_env lhz_bhz_state).2 (by decide)).2.2.2⟩

/-! ## `find_usable_channel`: the order of the probes -/

theorem less_irrefl : ∀ a : Str, less a a = false := by
  intro a
  induction a with
  | nil => rfl
  | cons c cs ih => simp [less, ih]

theorem less_asymm : ∀ a b : Str, less a b = true → less b a = false := by
  intro a
  induction a with
  | nil =>
    intro b _
    cases b <;> rfl
  | cons c cs ih =>
    intro b h
    cases b with
    | nil => simp [less] at h
    | cons d ds =>
      simp only [less] at h ⊢
      by_cases h1 : c.toNat < d.toNat
      · have h2 : ¬ d.toNat < c.toNat := by omega
        simp [h1, h2]
      · by_cases h2 : d.toNat < c.toNat
        · simp [h1, h2] at h
        · simp only [h1, h2, if_false] at h ⊢
          exact ih ds h

theorem channel_keys_probes (start_date : Str) (entries : Registry)
    (hkeys : ∀ entry ∈ entries, entry.1 = entry.2.network ++ entry.2.station) :
    channel_keys (probes start_date entries) =
      (entries.filter fun entry => !entry.2.invalid).map Prod.fst := by
  induction entries with
  | nil => rfl
  | cons entry rest ih =>
    obtain ⟨k, st⟩ := entry
    have hk : k = st.network ++ st.station := hkeys _ (List.mem_cons_self _ _)
    have ih' := ih fun e he => hkeys e (List.mem_cons_of_mem _ he)
    by_cases hinv : st.invalid = true
    · rw [probes_cons_invalid _ _ _ _ hinv, ih']
      simp [List.filter_cons, hinv]
    · have hinv2 : st.invalid = false := by simpa using hinv
      rw [probes_cons_valid _ _ _ _ hinv2]
      simp only [channel_keys, List.filterMap_cons, channel_key] at ih' ⊢
      rw [ih']
      simp [List.filter_cons, hinv2, hk]

theorem probes_append (start_date : Str) (a b : Registry) :
    probes start_date (a ++ b) = probes start_date a ++ probes start_date b := by
  simp [probes, List.filter_append]

/-- A call of `find_usable_channel` changes nothing of the map but the
`invalid` flag of the first entries, which it sets. -/
theorem find_usable_channel_frame (env : Env) (s : State) :
    ∃ earlier later, s.stations = earlier ++ later ∧
      (find_usable_channel env s).1.stations = earlier.map mark ++ later := by
  rw [(find_usable_channel_scan env s).1]
  rcases scan_stations_shape env s.start_date s.stations s.trace with
    ⟨_, h2, _⟩ | ⟨earlier, key, station, later, h1, _, _, h4, _, _⟩
  · exact ⟨s.stations, [], by simp, by simp [h2]⟩
  · exact ⟨earlier, (key, station) :: later, h1, h4⟩

/-- The requests of a call of `find_usable_channel` are the availability
queries for the stations not marked invalid of the first entries of the map, in
the order of the map. -/
theorem find_usable_channel_probes (env : Env) (s : State) :
    ∃ probed rest, s.stations = probed ++ rest ∧
      (find_usable_channel env s).1.trace = s.trace ++ probes s.start_date probed := by
  rw [(find_usable_channel_scan env s).2.1]
  rcases scan_stations_shape env s.start_date s.stations s.trace with
    ⟨_, _, h3⟩ | ⟨earlier, key, station, later, h1, h2, _, _, h5, _⟩
  · exact ⟨s.stations, [], by simp, h3⟩
  · refine ⟨earlier ++ [(key, station)], later, by simp [h1], ?_⟩
    rw [h5, probes_append, probes_cons_valid _ _ _ _ h2, List.append_assoc]
    rfl

/-- C16: in a map in ascending key order whose keys are the network code
followed by the station code, `find_usable_channel` probes the stations in
ascending order of their keys; whatever the outcome, it leaves the map as it
was but for the `invalid` flag of the first entries, which is set; and when it
returns true, the selected station has an entry, every entry with a smaller key
is marked invalid, and every entry with a greater key is an entry the map had
before the call and was not queried during the call. -/
theorem probed_in_key_order (env : Env) (s : State)
    (hsorted : s.stations.Pairwise fun a b => less a.1 b.1 = true)
    (hkeys : ∀ entry ∈ s.stations, entry.1 = entry.2.network ++ entry.2.station) :
    (channel_keys ((find_usable_channel env s).1.trace.drop s.trace.length)).Pairwise
      (fun a b => less a b = true) ∧
    (∃ earlier later, s.stations = earlier ++ later ∧
      (find_usable_channel env s).1.stations = earlier.map mark ++ later) ∧
    ((find_usable_channel env s).2 = .ok true →
      ((find_usable_channel env s).1.selected_station.network ++
          (find_usable_channel env s).1.selected_station.station,
        (find_usable_channel env s).1.selected_station) ∈
        (find_usable_channel env s).1.stations ∧
      (∀ entry ∈ (find_usable_channel env s).1.stations,
        less entry.1 ((find_usable_channel env s).1.selected_station.network ++
          (find_usable_channel env s).1.selected_station.station) = true →
        entry.2.invalid = true) ∧
      (∀ entry ∈ (find_usable_channel env s).1.stations,
        less ((find_usable_channel env s).1.selected_station.network ++
          (find_usable_channel env s).1.selected_station.station) entry.1 = true →
        entry ∈ s.stations ∧
        entry.1 ∉ channel_keys ((find_usable_channel env s).1.trace.drop s.trace.length))) := by
  refine ⟨?_, find_usable_channel_frame env s, ?_⟩
  · obtain ⟨probed, rest, h1, h2⟩ := find_usable_channel_probes env s
    rw [h2, List.drop_left, channel_keys_probes _ _
      (fun e he => hkeys e (by rw [h1]; exact List.mem_append_left _ he))]
    rw [h1] at hsorted
    have hp := (List.pairwise_append.1 hsorted).1
    have hf : (probed.filter fun entry => !entry.2.invalid).Pairwise
        (fun a b => less a.1 b.1 = true) := hp.sublist (List.filter_sublist probed)
    exact (List.pairwise_map.2 hf)
  · intro htrue
    obtain ⟨earlier, key, later, h1, h2, _, h4, h5⟩ :=
      (find_usable_channel_returns env s).2 htrue
    generalize (find_usable_channel env s).1.selected_station = selected at h1 h2 h4 h5 ⊢
    have hkey : key = selected.network ++ selected.station :=
      hkeys (key, selected) (by rw [h1]; simp)
    rw [← hkey]
    rw [h1] at hsorted hkeys
    obtain ⟨_, hp2, hp3⟩ := List.pairwise_append.1 hsorted
    have hlater : ∀ e ∈ later, less key e.1 = true := (List.pairwise_cons.1 hp2).1
    have hearlier : ∀ e ∈ earlier, less e.1 key = true :=
      fun e he => hp3 e he (key, selected) (List.mem_cons_self _ _)
    refine ⟨by rw [h4]; simp, ?_, ?_⟩
    · intro entry he hl
      rw [h4] at he
      rcases List.mem_append.1 he with he | he
      · obtain ⟨e, _, rfl⟩ := List.mem_map.1 he
        rfl
      · rcases List.mem_cons.1 he with rfl | he
        · rw [less_irrefl] at hl; cases hl
        · have := less_asymm _ _ (hlater entry he)
          rw [hl] at this; cases this
    · intro entry he hl
      rw [h4] at he
      rcases List.mem_append.1 he with he | he
      · obtain ⟨e, he0, rfl⟩ := List.mem_map.1 he
        have := less_asymm _ _ (hearlier e he0)
        simp only [mark] at hl
        rw [hl] at this; cases this
      · rcases List.mem_cons.1 he with rfl | he
        · rw [less_irrefl] at hl; cases hl
        · refine ⟨by rw [h1]; exact List.mem_append_right _ (List.mem_cons_of_mem _ he), ?_⟩
          rw [h5, List.append_assoc, List.drop_left, channel_keys_append,
            channel_keys_probes _ _
              (fun e he => hkeys e (List.mem_append_left _ he))]
          intro hm
          rcases List.mem_append.1 hm with hm | hm
          · obtain ⟨e, he1, he2⟩ := List.mem_map.1 hm
            have hlt := hp3 e (List.mem_filter.1 he1).1 entry (List.mem_cons_of_mem _ he)
            rw [he2, less_irrefl] at hlt
            cases hlt
          · simp only [channel_keys, List.filterMap_cons, channel_key, List.filterMap_nil,
              List.mem_singleton] at hm
            rw [← hkey] at hm
            rw [hm, less_irrefl] at hl
            cases hl

theorem probed_in_key_order_witness :
    channel_keys ((find_usable_channel found_env three_state).1.trace.drop
      three_state.trace.length) = ["IUANMO".toList] ∧
    (∀ entry ∈ (find_usable_channel found_env three_state).1.stations,
      less ((find_usable_channel found_env three_state).1.selected_station.network ++
        (find_usable_channel found_env three_state).1.selected_station.station) entry.1 = true →
      entry ∈ three_state.stations ∧
      entry.1 ∉ channel_keys ((find_usable_channel found_env three_state).1.trace.drop
        three_state.trace.length)) ∧
    (find_usable_channel found_env three_state).1.stations = three_state.stations :=
  ⟨by decide,
    ((probed_in_key_order found_env three_state (by decide) (by decide)).2.2 (by decide)).2.2,
    by decide⟩

/-! ## The map stays in key order -/

theorem less_total : ∀ a b : Str, a ≠ b → less a b = false → less b a = true := by
  intro a
  induction a with
  | nil =>
    intro b hne h
    cases b with
    | nil => exact absurd rfl hne
    | cons d ds => simp [less] at h
  | cons c cs ih =>
    intro b hne h
    cases b with
    | nil => rfl
    | cons d ds =>
      simp only [less] at h ⊢
      by_cases h1 : c.toNat < d.toNat
      · simp [h1] at h
      · by_cases h2 : d.toNat < c.toNat
        · simp [h2]
        · simp only [h1, h2, if_false] at h ⊢
          have hcd : c = d := by
            apply Char.ext
            apply UInt32.ext
            have : c.toNat = d.toNat := by omega
            exact this
          subst hcd
          exact ih ds (fun he => hne (by rw [he])) h

theorem less_trans : ∀ a b c : Str, less a b = true → less b c = true → less a c = true := by
  intro a
  induction a with
  | nil =>
    intro b c h1 h2
    cases c with
    | nil => cases b <;> simp [less] at h2
    | cons z zs => rfl
  | cons x xs ih =>
    intro b c h1 h2
    cases b with
    | nil => simp [less] at h1
    | cons y ys =>
      cases c with
      | nil => simp [less] at h2
      | cons z zs =>
        simp only [less] at h1 h2 ⊢
        by_cases hxy : x.toNat < y.toNat
        · by_cases hyz : y.toNat < z.toNat
          · rw [if_pos (by omega)]
          · by_cases hzy : z.toNat < y.toNat
            · simp [hyz, hzy] at h2
            · rw [if_pos (by omega)]
        · by_cases hyx : y.toNat < x.toNat
          · simp [hxy, hyx] at h1
          · simp only [hxy, hyx, if_false] at h1
            by_cases hyz : y.toNat < z.toNat
            · rw [if_pos (by omega)]
            · by_cases hzy : z.toNat < y.toNat
              · simp [hyz, hzy] at h2
              · simp only [hyz, hzy, if_false] at h2
                rw [if_neg (by omega), if_neg (by omega)]
                exact ih ys zs h1 h2

theorem mem_emplace (key : Str) (station : Station) (entry : Str × Station) :
    ∀ stations : Registry, entry ∈ stations.emplace key station →
      entry = (key, station) ∨ entry ∈ stations := by
  intro stations
  induction stations with
  | nil => intro h; left; simpa [Registry.emplace] using h
  | cons e rest ih =>
    obtain ⟨k, s⟩ := e
    intro h
    rw [Registry.emplace] at h
    by_cases hl : less key k = true
    · rw [if_pos hl] at h
      rcases List.mem_cons.1 h with h | h
      · exact Or.inl h
      · exact Or.inr h
    · rw [if_neg hl] at h
      by_cases hk : key = k
      · rw [if_pos hk] at h; exact Or.inr h
      · rw [if_neg hk] at h
        rcases List.mem_cons.1 h with h | h
        · exact Or.inr (by rw [h]; exact List.mem_cons_self _ _)
        · rcases ih h with h | h
          · exact Or.inl h
          · exact Or.inr (List.mem_cons_of_mem _ h)

theorem emplace_sorted (key : Str) (station : Station) :
    ∀ stations : Registry, stations.Pairwise (fun a b => less a.1 b.1 = true) →
      (stations.emplace key station).Pairwise (fun a b => less a.1 b.1 = true) := by
  intro stations
  induction stations with
  | nil => intro _; simp [Registry.emplace]
  | cons e rest ih =>
    obtain ⟨k, s⟩ := e
    intro h
    obtain ⟨h1, h2⟩ := List.pairwise_cons.1 h
    rw [Registry.emplace]
    by_cases hl : less key k = true
    · rw [if_pos hl]
      refine List.pairwise_cons.2 ⟨?_, h⟩
      intro e he
      rcases List.mem_cons.1 he with rfl | he
      · exact hl
      · exact less_trans _ _ _ hl (h1 e he)
    · rw [if_neg hl]
      by_cases hk : key = k
      · rw [if_pos hk]; exact h
      · rw [if_neg hk]
        refine List.pairwise_cons.2 ⟨?_, ih h2⟩
        intro e he
        rcases mem_emplace key station e rest he with rfl | he
        · exact less_total _ _ hk (by simpa using hl)
        · exact h1 e he

theorem add_stations_well_formed :
    ∀ (rows : List (List Str)) (stations : Registry),
      WellFormed stations → WellFormed (add_stations rows stations) := by
  intro rows
  induction rows with
  | nil => intro stations h; exact h
  | cons row rest ih =>
    intro stations h
    simp only [add_stations]
    by_cases hnew : (Registry.find (field row 0 ++ field row 1) stations).isNone = true
    · rw [if_pos hnew]
      apply ih
      refine ⟨emplace_sorted _ _ _ h.1, fun e he => ?_⟩
      rcases mem_emplace _ _ e stations he with rfl | he
      · rfl
      · exact h.2 e he
    · rw [if_neg hnew]
      exact ih stations h

theorem find_available_stations_well_formed (env : Env) (s : State)
    (h : WellFormed s.stations) : WellFormed (find_available_stations env s).1.stations := by
  rcases find_available_stations_cases env s with ⟨m, _, hf⟩ | ⟨r, _, _, hf⟩ |
    ⟨r, res, _, _, _, _, hf, _⟩ | ⟨r, rows, _, _, _, hf⟩
  · rw [hf]; exact h
  · rw [hf]; exact h
  · rw [hf]; exact h
  · rw [hf]; exact add_stations_well_formed rows s.stations h

theorem find_usable_channel_well_formed (env : Env) (s : State)
    (h : WellFormed s.stations) : WellFormed (find_usable_channel env s).1.stations := by
  obtain ⟨earlier, later, h1, h2⟩ := find_usable_channel_frame env s
  rw [h2]
  rw [h1] at h
  obtain ⟨hs, hk⟩ := h
  constructor
  · have hkeys : (earlier.map mark ++ later).map Prod.fst = (earlier ++ later).map Prod.fst := by
      simp [mark, Function.comp_def]
    rw [← List.pairwise_map (f := Prod.fst) (R := fun a b => less a b = true)] at hs ⊢
    rw [hkeys]; exact hs
  · intro e he
    rcases List.mem_append.1 he with he | he
    · obtain ⟨e0, he0, rfl⟩ := List.mem_map.1 he
      exact hk e0 (List.mem_append_left _ he0)
    · exact hk e (List.mem_append_right _ he)

theorem attempt_well_formed (env : Env) (s : State) (h : WellFormed s.stations) :
    WellFormed (attempt env s).1.stations := by
  have h1 := find_available_stations_well_formed env s h
  unfold attempt
  cases hf : find_available_stations env s with
  | mk s1 out =>
    rw [hf] at h1
    cases out with
    | error message => exact h1
    | undefined => exact h1
    | ok b =>
      cases b with
      | false => exact h1
      | true =>
        have h2 := find_usable_channel_well_formed env s1 h1
        simp only []
        cases hu : find_usable_channel env s1 with
        | mk s2 out2 =>
          rw [hu] at h2
          cases out2 with
          | error message => exact h2
          | undefined => exact h2
          | ok b2 =>
            cases b2 with
            | false => exact h2
            | true =>
              have h3 := save_wav_stations env s2
              simp only []
              cases hw : save_wav env s2 with
              | mk s3 out3 =>
                rw [hw] at h3
                simp only at h3
                cases out3 <;> (simp only []; rw [h3]; exact h2)

/-- The map of every state of a run is in ascending key order with keys made of
the network and station codes: every call of `find_usable_channel` in a run
starts from a well-formed map. -/
theorem run_well_formed (env : Env) :
    ∀ (n : Nat) (s : State), WellFormed s.stations → WellFormed (run env n s).1.stations := by
  intro n
  induction n with
  | zero => intro s h; exact h
  | succ n ih =>
    intro s h
    have h1 : WellFormed (iteration env s).1.stations := by
      rw [iteration_eq_attempt]
      exact attempt_well_formed env
        { s with radius := if s.first_attempt then s.radius else s.radius.double } h
    rw [run]
    cases hit : iteration env s with
    | mk s1 status =>
      rw [hit] at h1
      cases status with
      | searching => exact ih s1 h1
      | saved => exact h1
      | failed message => exact h1
      | undefined => exact h1

theorem initial_state_well_formed (start_date start_time : Str) (duration : Int) :
    WellFormed (initial_state start_date start_time duration).stations := by
  simp [WellFormed, initial_state]

/-! ## The input line -/

/-- C13, amended: the input fails at once, with nothing done to the outside
world: with the usage message when the split of the line on `' '` does not
give five tokens; with "Invalid date format." when it gives five tokens,
the first two convert and the date token is not of the form YYYY-MM-DD; with
"Invalid time format." when moreover the date token is of that form and the
time token is not of the form HH:MM:SS. A line of five tokens whose first, second
and last convert and whose date and time are of these forms passes: `main`
enters the loop with this date, time and duration. -/
theorem input_validation (env : Env) (conv : Conversions) (input : Str) (n : Nat) :
    ((split input ' ').length ≠ 5 → main env conv input n = ([], .failed usage)) ∧
    ((split input ' ').length = 5 →
      conv.stof ((split input ' ').getD 0 []) = .ok () →
      conv.stof ((split input ' ').getD 1 []) = .ok () →
      (matches_date ((split input ' ').getD 2 []) = false →
        main env conv input n = ([], .failed invalid_date)) ∧
      (matches_date ((split input ' ').getD 2 []) = true →
        matches_time ((split input ' ').getD 3 []) = false →
        main env conv input n = ([], .failed invalid_time)) ∧
      (∀ duration, matches_date ((split input ' ').getD 2 []) = true →
        matches_time ((split input ' ').getD 3 []) = true →
        conv.stoi ((split input ' ').getD 4 []) = .ok duration →
        read_input conv input =
          .ok (initial_state ((split input ' ').getD 2 []) ((split input ' ').getD 3 [])
            duration) ∧
        main env conv input n =
          ((run env n (initial_state ((split input ' ').getD 2 [])
              ((split input ' ').getD 3 []) duration)).1.trace,
            (run env n (initial_state ((split input ' ').getD 2 [])
              ((split input ' ').getD 3 []) duration)).2))) := by
  constructor
  · intro h
    simp [main, read_input, h]
  · intro h5 h0 h1
    refine ⟨fun hd => ?_, fun hd ht => ?_, fun duration hd ht hi => ?_⟩
    · simp only [main, read_input, h5, h0, h1, hd, ne_eq, not_true_eq_false, if_false,
        Bool.not_false, if_true]
    · simp only [main, read_input, h5, h0, h1, hd, ht, ne_eq, not_true_eq_false, if_false,
        Bool.not_false, Bool.not_true, if_true, Bool.false_eq_true]
    · have hr : read_input conv input =
          .ok (initial_state ((split input ' ').getD 2 []) ((split input ' ').getD 3 [])
            duration) := by
        simp only [read_input, h5, h0, h1, hd, ht, hi, ne_eq, not_true_eq_false, if_false,
          Bool.not_true, Bool.false_eq_true]
      exact ⟨hr, by simp only [main, hr]⟩

theorem input_validation_witness :
    main not_found_env lenient "41.967 -71.188 2017-03-01 12:00:00".toList 3 =
      ([], .failed usage) ∧
    main not_found_env lenient "41.967 -71.188 2017-03-01 12:00 1800".toList 3 =
      ([], .failed invalid_time) ∧
    read_input lenient "41.967 -71.188 2017-03-01 12:00:00 1800".toList = .ok example_start :=
  ⟨(input_validation not_found_env lenient "41.967 -71.188 2017-03-01 12:00:00".toList 3).1
      (by decide),
    ((input_validation not_found_env lenient "41.967 -71.188 2017-03-01 12:00 1800".toList 3).2
      (by decide) rfl rfl).2.1 (by decide) (by decide),
    (((input_validation not_found_env lenient "41.967 -71.188 2017-03-01 12:00:00 1800".toList
      3).2 (by decide) rfl rfl).2.2 1800 (by decide) (by decide) rfl).1⟩

/-- C13 fails as stated: a line of five tokens whose date token is `2017-3-01`
fails with the message "Invalid date format.", which is not the usage message;
and a line whose five tokens are separated by white space, two spaces in one
place, fails with the usage message. -/
theorem malformed_date_not_usage :
    main not_found_env lenient "41.967 -71.188 2017-3-01 12:00:00 1800".toList 3 =
      ([], .failed invalid_date) ∧
    invalid_date ≠ usage ∧
    main not_found_env lenient "41.967 -71.188  2017-03-01 12:00:00 1800".toList 3 =
      ([], .failed usage) := by
  refine ⟨by decide, ?_, rfl⟩
  intro h
  have hhead := congrArg List.head? h
  revert hhead
  decide

end Seismograph
